import Mathlib

/-!
# Verification of the cliedit viewport geometry and display engine

Shallow embedding of the core of the `cliedit` terminal editor:
line wrapping geometry (`getLineVisualHeight`, `getLogicalFromVisual`),
cursor/visual-row translation (`findCurrentVisualRowIndex`, both the
stateless recompute variant and the materialized-table variant),
cursor movement (`moveCursorLogically`, `moveCursorByWord`, `matchBracket`),
scrolling (`scroll`, `jumpToLine`), the double-buffered `ScreenBuffer.flush`,
and the line-list invariants of the editing operations.

JS strings are embedded as `List Char`, JS numbers as `Nat` (all the
embedded quantities are non-negative; where JS subtraction can go below
zero the code always clamps with `Math.max(0, ·)` or a guard, which
truncated `Nat` subtraction reproduces exactly — noted at each site).
-/

namespace Cliedit

/-- A logical line of the document: a JS string as a list of characters. -/
abbrev Line := List Char

/-- Cursor / anchor position, `{ x, y }` as in `editor.ts`. -/
structure Pos where
  x : Nat
  y : Nat
deriving DecidableEq, Repr

/-- The editor state fields read and written by the embedded methods of
`CliEditor` (`editor.ts`): the document lines, the logical cursor, the
viewport, and the selection anchor. -/
structure EditorState where
  lines : List Line
  cursorX : Nat
  cursorY : Nat
  rowOffset : Nat
  screenRows : Nat
  screenCols : Nat
  gutterWidth : Nat
  selectionAnchor : Option Pos
  mode : String
  isDirty : Bool
deriving DecidableEq, Repr

/-- `max(1, ceil(len/width))`: the number of visual rows a line of length
`len` occupies at content width `width` (`width ≥ 1` assumed by callers;
both code paths force it with `Math.max(1, ·)`). For `len ≥ 1, width ≥ 1`,
`Math.ceil(len/width) = (len + width - 1) / width` in `Nat` division. -/
def lineHeight (len width : Nat) : Nat :=
  if len = 0 then 1 else (len + width - 1) / width

/-- `getLineVisualHeight` (`editor.rendering.ts:14-22`): visual height of
logical line `lineIndex`; `1` for an out-of-range index (`undefined` line)
and for an empty line, else `ceil(length / contentWidth)` with
`contentWidth = max(1, screenCols - gutterWidth)`.  The source's two
early returns (`undefined` line, zero-length line) both yield `1`, which
coincides with reading the line as `getD lineIndex []` and testing its
length, so the embedding merges them. -/
def getLineVisualHeight (lines : List Line) (screenCols gutterWidth : Nat)
    (lineIndex : Nat) : Nat :=
  let line := lines.getD lineIndex []
  if line.length = 0 then 1
  else
    let contentWidth := max 1 (screenCols - gutterWidth)
    (line.length + contentWidth - 1) / contentWidth

/-- Sum of `getLineVisualHeight` over the lines before index `k`; this is
the quantity the loop in `findCurrentVisualRowIndex` (`part_005:19-21`)
accumulates, and for `k = lines.length` the total number of visual rows. -/
def sumHeightsBefore (lines : List Line) (screenCols gutterWidth k : Nat) : Nat :=
  ((List.range k).map (getLineVisualHeight lines screenCols gutterWidth)).sum

/-- Total number of visual rows of the document (the spec's
`sum(visualHeight(Li, W) for all i)`). -/
def totalVisualRows (lines : List Line) (screenCols gutterWidth : Nat) : Nat :=
  sumHeightsBefore lines screenCols gutterWidth lines.length

/-- Stateless `findCurrentVisualRowIndex` (`part_005:13-28`): sum of the
visual heights of all lines before `cursorY`, plus
`floor(cursorX / contentWidth)`. The source accumulates the sum in a
`for` loop; the fold below mirrors it. -/
def findCurrentVisualRowIndex (lines : List Line)
    (screenCols gutterWidth cursorY cursorX : Nat) : Nat :=
  let contentWidth := max 1 (screenCols - gutterWidth)
  let visualRowIndex :=
    (List.range cursorY).foldl
      (fun acc i => acc + getLineVisualHeight lines screenCols gutterWidth i) 0
  visualRowIndex + cursorX / contentWidth

/-- `scroll` (`part_005:141-152`, identical in `editor.navigation.ts:127-138`):
snap `rowOffset` up to the cursor's visual row if the cursor is above the
window, then down to `currentVisualRow - screenRows + 1` if it is at or
below the bottom edge.  The second `if` reads the `rowOffset` already
updated by the first, as in the source.  Under the guard
`currentVisualRow ≥ rowOffset + screenRows` the `Nat` subtraction
`currentVisualRow - screenRows + 1` is exact. -/
def scroll (s : EditorState) : EditorState :=
  let currentVisualRow :=
    findCurrentVisualRowIndex s.lines s.screenCols s.gutterWidth s.cursorY s.cursorX
  let s₁ := if currentVisualRow < s.rowOffset
    then { s with rowOffset := currentVisualRow } else s
  if s₁.rowOffset + s₁.screenRows ≤ currentVisualRow then
    { s₁ with rowOffset := currentVisualRow - s₁.screenRows + 1 }
  else s₁

/-- `moveCursorLogically` (`editor.navigation.ts:42-59`, identical in
`part_005:33-50`): character-wise cursor move by `dx = ±1`, wrapping to
the previous line's end / next line's start at line boundaries. -/
def moveCursorLogically (s : EditorState) (dx : Int) : EditorState :=
  if dx = -1 then
    if 0 < s.cursorX then { s with cursorX := s.cursorX - 1 }
    else if 0 < s.cursorY then
      { s with cursorY := s.cursorY - 1
               cursorX := (s.lines.getD (s.cursorY - 1) []).length }
    else s
  else if dx = 1 then
    let lineLength := (s.lines.getD s.cursorY []).length
    if s.cursorX < lineLength then { s with cursorX := s.cursorX + 1 }
    else if s.cursorY < s.lines.length - 1 then
      { s with cursorY := s.cursorY + 1, cursorX := 0 }
    else s
  else s

/-- `findCurrentVisualRowIndex` ignores `rowOffset`, `screenRows`, the
selection, the mode and the dirty flag: only lines, cursor and widths enter. -/
theorem findCurrentVisualRowIndex_rowOffset (s : EditorState) (r : Nat) :
    findCurrentVisualRowIndex ({ s with rowOffset := r }).lines
      ({ s with rowOffset := r }).screenCols ({ s with rowOffset := r }).gutterWidth
      ({ s with rowOffset := r }).cursorY ({ s with rowOffset := r }).cursorX
    = findCurrentVisualRowIndex s.lines s.screenCols s.gutterWidth s.cursorY s.cursorX := rfl

/-- `scroll` changes only `rowOffset`. -/
theorem scroll_fields (s : EditorState) :
    (scroll s).lines = s.lines ∧ (scroll s).cursorX = s.cursorX ∧
    (scroll s).cursorY = s.cursorY ∧ (scroll s).screenRows = s.screenRows ∧
    (scroll s).screenCols = s.screenCols ∧ (scroll s).gutterWidth = s.gutterWidth := by
  unfold scroll
  dsimp only
  split <;> split <;> simp

/-- C2: after `scroll()`, with `rows ≥ 1`, the cursor's visual row `v`
satisfies `rowOffset ≤ v < rowOffset + rows`.  (`rowOffset` is a `Nat`,
so the claim's `rowOffset ≥ 0` precondition is inherent.) -/
theorem scroll_keeps_cursor_visible (s : EditorState) (hRows : 1 ≤ s.screenRows) :
    (scroll s).rowOffset
        ≤ findCurrentVisualRowIndex (scroll s).lines (scroll s).screenCols
            (scroll s).gutterWidth (scroll s).cursorY (scroll s).cursorX ∧
    findCurrentVisualRowIndex (scroll s).lines (scroll s).screenCols
        (scroll s).gutterWidth (scroll s).cursorY (scroll s).cursorX
      < (scroll s).rowOffset + (scroll s).screenRows := by
  obtain ⟨hl, hx, hy, hr, hc, hg⟩ := scroll_fields s
  rw [hl, hx, hy, hr, hc, hg]
  unfold scroll
  dsimp only
  split_ifs with h₁ h₂ h₂ <;> (try dsimp only at *) <;> omega

/-- C7: character-wise movement: `±1` column inside the line; wrap to the
previous line's end when moving left at column 0, to the next line's start
when moving right at end-of-line; no-op at document start and end. -/
theorem moveCursorLogically_spec (s : EditorState)
    (hY : s.cursorY < s.lines.length)
    (hX : s.cursorX ≤ (s.lines.getD s.cursorY []).length) :
    (0 < s.cursorX →
      moveCursorLogically s (-1) = { s with cursorX := s.cursorX - 1 }) ∧
    (s.cursorX = 0 → 0 < s.cursorY →
      moveCursorLogically s (-1)
        = { s with cursorY := s.cursorY - 1
                   cursorX := (s.lines.getD (s.cursorY - 1) []).length }) ∧
    (s.cursorX = 0 → s.cursorY = 0 → moveCursorLogically s (-1) = s) ∧
    (s.cursorX < (s.lines.getD s.cursorY []).length →
      moveCursorLogically s 1 = { s with cursorX := s.cursorX + 1 }) ∧
    (s.cursorX = (s.lines.getD s.cursorY []).length →
      s.cursorY < s.lines.length - 1 →
      moveCursorLogically s 1 = { s with cursorY := s.cursorY + 1, cursorX := 0 }) ∧
    (s.cursorX = (s.lines.getD s.cursorY []).length →
      s.cursorY = s.lines.length - 1 → moveCursorLogically s 1 = s) := by
  refine ⟨fun h => ?_, fun h hy => ?_, fun h hy => ?_,
          fun h => ?_, fun h hy => ?_, fun h hy => ?_⟩ <;>
    simp only [moveCursorLogically] <;> split_ifs <;> first | rfl | contradiction | omega

/-- Witness for C7: the spec scenario — lines `["Line 1","Line 2","Line 3"]`,
cursor at `(0,6)` (end of the first line); character-right lands at `(1,0)`. -/
theorem moveCursorLogically_witness :
    ((⟨[['L','i','n','e',' ','1'], ['L','i','n','e',' ','2'], ['L','i','n','e',' ','3']],
        6, 0, 0, 3, 9, 1, none, "edit", false⟩ : EditorState).cursorY
        < (⟨[['L','i','n','e',' ','1'], ['L','i','n','e',' ','2'], ['L','i','n','e',' ','3']],
            6, 0, 0, 3, 9, 1, none, "edit", false⟩ : EditorState).lines.length ∧
      (moveCursorLogically ⟨[['L','i','n','e',' ','1'], ['L','i','n','e',' ','2'], ['L','i','n','e',' ','3']],
          6, 0, 0, 3, 9, 1, none, "edit", false⟩ 1).cursorY = 1 ∧
      (moveCursorLogically ⟨[['L','i','n','e',' ','1'], ['L','i','n','e',' ','2'], ['L','i','n','e',' ','3']],
          6, 0, 0, 3, 9, 1, none, "edit", false⟩ 1).cursorX = 0) ∧
    moveCursorLogically (⟨[['L','i','n','e',' ','1'], ['L','i','n','e',' ','2'], ['L','i','n','e',' ','3']],
        6, 0, 0, 3, 9, 1, none, "edit", false⟩ : EditorState) 1
      = { (⟨[['L','i','n','e',' ','1'], ['L','i','n','e',' ','2'], ['L','i','n','e',' ','3']],
            6, 0, 0, 3, 9, 1, none, "edit", false⟩ : EditorState) with
          cursorY := 1, cursorX := 0 } :=
  ⟨by decide,
   (moveCursorLogically_spec _ (by decide) (by decide)).2.2.2.2.1 (by decide) (by decide)⟩

/-- Witness for C2 at a concrete state: three one-row lines, cursor on the
last one, window of 1 row previously scrolled to offset 10. -/
theorem scroll_keeps_cursor_visible_witness :
    1 ≤ (⟨[['a'], ['b'], ['c']], 0, 2, 10, 1, 9, 1, none, "edit", false⟩ : EditorState).screenRows ∧
    ((scroll ⟨[['a'], ['b'], ['c']], 0, 2, 10, 1, 9, 1, none, "edit", false⟩).rowOffset
        ≤ findCurrentVisualRowIndex (scroll ⟨[['a'], ['b'], ['c']], 0, 2, 10, 1, 9, 1, none, "edit", false⟩).lines
            (scroll ⟨[['a'], ['b'], ['c']], 0, 2, 10, 1, 9, 1, none, "edit", false⟩).screenCols
            (scroll ⟨[['a'], ['b'], ['c']], 0, 2, 10, 1, 9, 1, none, "edit", false⟩).gutterWidth
            (scroll ⟨[['a'], ['b'], ['c']], 0, 2, 10, 1, 9, 1, none, "edit", false⟩).cursorY
            (scroll ⟨[['a'], ['b'], ['c']], 0, 2, 10, 1, 9, 1, none, "edit", false⟩).cursorX ∧
      findCurrentVisualRowIndex (scroll ⟨[['a'], ['b'], ['c']], 0, 2, 10, 1, 9, 1, none, "edit", false⟩).lines
          (scroll ⟨[['a'], ['b'], ['c']], 0, 2, 10, 1, 9, 1, none, "edit", false⟩).screenCols
          (scroll ⟨[['a'], ['b'], ['c']], 0, 2, 10, 1, 9, 1, none, "edit", false⟩).gutterWidth
          (scroll ⟨[['a'], ['b'], ['c']], 0, 2, 10, 1, 9, 1, none, "edit", false⟩).cursorY
          (scroll ⟨[['a'], ['b'], ['c']], 0, 2, 10, 1, 9, 1, none, "edit", false⟩).cursorX
        < (scroll ⟨[['a'], ['b'], ['c']], 0, 2, 10, 1, 9, 1, none, "edit", false⟩).rowOffset
            + (scroll ⟨[['a'], ['b'], ['c']], 0, 2, 10, 1, 9, 1, none, "edit", false⟩).screenRows) :=
  ⟨by decide, scroll_keeps_cursor_visible _ (by decide)⟩

/-- Folding `acc + f i` over a list starting from `a` is `a` plus the sum of
the mapped list (the accumulation loop of `findCurrentVisualRowIndex` in
sum form). -/
theorem foldl_add_map (f : Nat → Nat) (l : List Nat) (a : Nat) :
    l.foldl (fun acc i => acc + f i) a = a + (l.map f).sum := by
  induction l generalizing a with
  | nil => simp
  | cons x xs ih => simp [ih, Nat.add_assoc]

/-- `Math.ceil(L/W)` as `Nat` division: `(L + W - 1) / W` is `L / W`,
plus one exactly when `W` does not divide `L`. -/
theorem ceil_div_eq (L W : Nat) (hW : 1 ≤ W) :
    (L + W - 1) / W = L / W + if L % W = 0 then 0 else 1 := by
  have hq := Nat.div_add_mod L W
  have hr : L % W < W := Nat.mod_lt _ hW
  by_cases h0 : L % W = 0
  · have hL : L + W - 1 = W * (L / W) + (W - 1) := by omega
    rw [hL, Nat.mul_add_div (by omega), Nat.div_eq_of_lt (show W - 1 < W by omega)]
    simp [h0]
  · have hmul : W * (L / W + 1) = W * (L / W) + W := by ring
    have hL : L + W - 1 = W * (L / W + 1) + (L % W - 1) := by omega
    rw [hL, Nat.mul_add_div (by omega),
        Nat.div_eq_of_lt (show L % W - 1 < W by omega)]
    simp [h0]

/-- `getLineVisualHeight` in terms of the line's length `L` and the content
width `W`: it is `L / W` plus one, except when `L` is a positive multiple
of `W` (there the division is exact). -/
theorem getLineVisualHeight_eq (lines : List Line) (sc gw i : Nat) :
    getLineVisualHeight lines sc gw i
      = (lines.getD i []).length / max 1 (sc - gw)
        + (if 0 < (lines.getD i []).length ∧
              max 1 (sc - gw) ∣ (lines.getD i []).length then 0 else 1) := by
  have hstep : ∀ L W : Nat, 1 ≤ W →
      (if L = 0 then 1 else (L + W - 1) / W)
        = L / W + (if 0 < L ∧ W ∣ L then 0 else 1) := by
    intro L W hW
    by_cases hL : L = 0
    · simp [hL]
    · have hcond : (0 < L ∧ W ∣ L) ↔ L % W = 0 := by
        constructor
        · rintro ⟨-, hd⟩
          exact Nat.dvd_iff_mod_eq_zero.mp hd
        · intro hm
          exact ⟨Nat.pos_of_ne_zero hL, Nat.dvd_of_mod_eq_zero hm⟩
      rw [if_neg hL, ceil_div_eq L W hW]
      simp only [hcond]
  exact hstep (lines.getD i []).length (max 1 (sc - gw)) (le_max_left _ _)

/-- C1 is false as stated: for a single line `"a"` and width `8`
(`screenCols = 9`, `gutterWidth = 1`), the total visual height is `1`, but
the visual row index of the position one past the last character —
`findCurrentVisualRowIndex` at `(cursorY, cursorX) = (0, 1)` — is `0`. -/
theorem totalVisualRows_ne_caretRow :
    totalVisualRows [['a']] 9 1 ≠ findCurrentVisualRowIndex [['a']] 9 1 0 1 := by
  decide

/-- C1 amended: the sum of the visual heights of all lines exceeds the
visual row index of the position one past the last character of the last
line by one, except when the last line's length is a positive multiple of
the content width (then the two are equal, the end-of-line caret falling
on the start of a phantom next chunk). -/
theorem totalVisualRows_eq_caretRow (lines : List Line) (sc gw : Nat)
    (hne : lines ≠ []) :
    totalVisualRows lines sc gw
      = findCurrentVisualRowIndex lines sc gw (lines.length - 1)
          (lines.getD (lines.length - 1) []).length
        + (if 0 < (lines.getD (lines.length - 1) []).length ∧
              max 1 (sc - gw) ∣ (lines.getD (lines.length - 1) []).length
           then 0 else 1) := by
  have hpos : 0 < lines.length := List.length_pos.mpr hne
  have h1 : totalVisualRows lines sc gw
      = sumHeightsBefore lines sc gw (lines.length - 1)
        + getLineVisualHeight lines sc gw (lines.length - 1) := by
    unfold totalVisualRows sumHeightsBefore
    conv_lhs => rw [show lines.length = (lines.length - 1) + 1 from by omega]
    rw [List.range_succ, List.map_append, List.sum_append]
    simp
  have h2 : findCurrentVisualRowIndex lines sc gw (lines.length - 1)
        (lines.getD (lines.length - 1) []).length
      = sumHeightsBefore lines sc gw (lines.length - 1)
        + (lines.getD (lines.length - 1) []).length / max 1 (sc - gw) := by
    unfold findCurrentVisualRowIndex sumHeightsBefore
    rw [foldl_add_map]
    simp
  rw [h1, h2, getLineVisualHeight_eq]
  omega

/-- Witness for amended C1: the spec's scenario line `"1234567890"` at
width `8`: total visual rows `2`, caret row `1`, and `10` is not a
multiple of `8`, so the amended equation reads `2 = 1 + 1`. -/
theorem totalVisualRows_eq_caretRow_witness :
    (([['1','2','3','4','5','6','7','8','9','0']] : List Line) ≠ [] ∧
      totalVisualRows [['1','2','3','4','5','6','7','8','9','0']] 9 1 = 2 ∧
      findCurrentVisualRowIndex [['1','2','3','4','5','6','7','8','9','0']] 9 1 0 10 = 1) ∧
    totalVisualRows [['1','2','3','4','5','6','7','8','9','0']] 9 1
      = findCurrentVisualRowIndex [['1','2','3','4','5','6','7','8','9','0']] 9 1
          (([['1','2','3','4','5','6','7','8','9','0']] : List Line).length - 1)
          (([['1','2','3','4','5','6','7','8','9','0']] : List Line).getD
            (([['1','2','3','4','5','6','7','8','9','0']] : List Line).length - 1) []).length
        + (if 0 < (([['1','2','3','4','5','6','7','8','9','0']] : List Line).getD
                (([['1','2','3','4','5','6','7','8','9','0']] : List Line).length - 1) []).length ∧
              max 1 (9 - 1) ∣ (([['1','2','3','4','5','6','7','8','9','0']] : List Line).getD
                (([['1','2','3','4','5','6','7','8','9','0']] : List Line).length - 1) []).length
           then 0 else 1) :=
  ⟨by decide, totalVisualRows_eq_caretRow _ 9 1 (by decide)⟩

/-- `findCurrentVisualRowIndex` as a closed sum: the prefix sum of line
heights plus the cursor's chunk index. -/
theorem findCurrentVisualRowIndex_eq (lines : List Line) (sc gw cY cX : Nat) :
    findCurrentVisualRowIndex lines sc gw cY cX
      = sumHeightsBefore lines sc gw cY + cX / max 1 (sc - gw) := by
  unfold findCurrentVisualRowIndex sumHeightsBefore
  rw [foldl_add_map]
  simp

/-- `sumHeightsBefore` unfolded by one line. -/
theorem sumHeightsBefore_succ (lines : List Line) (sc gw k : Nat) :
    sumHeightsBefore lines sc gw (k + 1)
      = sumHeightsBefore lines sc gw k + getLineVisualHeight lines sc gw k := by
  unfold sumHeightsBefore
  rw [List.range_succ, List.map_append, List.sum_append]
  simp

/-- Prefix sums of visual heights are monotone. -/
theorem sumHeightsBefore_mono (lines : List Line) (sc gw : Nat) {j k : Nat}
    (h : j ≤ k) :
    sumHeightsBefore lines sc gw j ≤ sumHeightsBefore lines sc gw k := by
  induction k with
  | zero => simp_all
  | succ k ih =>
    rcases Nat.lt_or_ge j (k + 1) with hlt | hge
    · exact le_trans (ih (by omega)) (by rw [sumHeightsBefore_succ]; omega)
    · have hj : j = k + 1 := by omega
      simp [hj]

/-- `jumpToLine` (`part_005:157-170`, identical in
`editor.navigation.ts:143-156`): clamp the 1-based target line into range
(`Math.max(0, Math.min(targetY, len-1))`; `Nat` subtraction and `min`
reproduce the clamping for `lineNumber = 0` and empty documents), move the
cursor to the line start, and center the viewport:
`rowOffset = max(0, visualRowIndex - floor(screenRows/2))`, which is the
truncated `Nat` subtraction.  The `setStatusMessage` call (a status-bar
side effect with a timeout) is not part of the embedded state. -/
def jumpToLine (s : EditorState) (lineNumber : Nat) : EditorState :=
  let targetY := lineNumber - 1
  let s₁ := { s with cursorY := min targetY (s.lines.length - 1), cursorX := 0 }
  let visualRowIndex :=
    findCurrentVisualRowIndex s₁.lines s₁.screenCols s₁.gutterWidth s₁.cursorY s₁.cursorX
  { s₁ with rowOffset := visualRowIndex - s.screenRows / 2, mode := "edit" }

/-- C5's containment clause is false: for 10 one-row lines (`W = 8`,
`rows = 3`), jumping to line 10 yields
`rowOffset = 9 - floor(3/2) = 8`, which exceeds
`max(0, totalVisualRows - rows) = 7`: `jumpToLine` performs no upper
clamping. -/
theorem jumpToLine_not_clamped :
    ¬ ((jumpToLine ⟨List.replicate 10 ['x'], 0, 0, 0, 3, 9, 1, none, "edit", false⟩ 10).rowOffset
        ≤ max 0 (totalVisualRows (List.replicate 10 ['x']) 9 1 - 3)) := by
  decide

/-- C5 amended: `jumpToLine` moves the cursor to the start of the clamped
target line and sets `rowOffset = max(0, targetVisualRow - floor(rows/2))`
where `targetVisualRow` is the prefix sum of visual heights before the
target line; no clamping to `[0, max(0, totalVisualRows - rows)]` is
applied. -/
theorem jumpToLine_centering (s : EditorState) (lineNumber : Nat)
    (hne : s.lines ≠ []) :
    (jumpToLine s lineNumber).cursorY
        = min (lineNumber - 1) (s.lines.length - 1) ∧
    (jumpToLine s lineNumber).cursorX = 0 ∧
    (jumpToLine s lineNumber).rowOffset
      = sumHeightsBefore s.lines s.screenCols s.gutterWidth
          (min (lineNumber - 1) (s.lines.length - 1))
        - s.screenRows / 2 := by
  refine ⟨rfl, rfl, ?_⟩
  show findCurrentVisualRowIndex s.lines s.screenCols s.gutterWidth
      (min (lineNumber - 1) (s.lines.length - 1)) 0 - s.screenRows / 2 = _
  rw [findCurrentVisualRowIndex_eq]
  simp

/-- Witness for amended C5: the spec scenario — 10 identical one-row lines,
`rows = 3`, jump to line 5 (1-based): the target visual row is 4 and the
resulting `rowOffset` is `4 - 1 = 3`. -/
theorem jumpToLine_centering_witness :
    ((⟨List.replicate 10 ['x'], 0, 0, 0, 3, 9, 1, none, "edit", false⟩ : EditorState).lines ≠ [] ∧
      (jumpToLine ⟨List.replicate 10 ['x'], 0, 0, 0, 3, 9, 1, none, "edit", false⟩ 5).rowOffset = 3) ∧
    ((jumpToLine ⟨List.replicate 10 ['x'], 0, 0, 0, 3, 9, 1, none, "edit", false⟩ 5).cursorY
        = min (5 - 1) ((⟨List.replicate 10 ['x'], 0, 0, 0, 3, 9, 1, none, "edit", false⟩ : EditorState).lines.length - 1) ∧
      (jumpToLine ⟨List.replicate 10 ['x'], 0, 0, 0, 3, 9, 1, none, "edit", false⟩ 5).cursorX = 0 ∧
      (jumpToLine ⟨List.replicate 10 ['x'], 0, 0, 0, 3, 9, 1, none, "edit", false⟩ 5).rowOffset
        = sumHeightsBefore (⟨List.replicate 10 ['x'], 0, 0, 0, 3, 9, 1, none, "edit", false⟩ : EditorState).lines
            (⟨List.replicate 10 ['x'], 0, 0, 0, 3, 9, 1, none, "edit", false⟩ : EditorState).screenCols
            (⟨List.replicate 10 ['x'], 0, 0, 0, 3, 9, 1, none, "edit", false⟩ : EditorState).gutterWidth
            (min (5 - 1) ((⟨List.replicate 10 ['x'], 0, 0, 0, 3, 9, 1, none, "edit", false⟩ : EditorState).lines.length - 1))
          - (⟨List.replicate 10 ['x'], 0, 0, 0, 3, 9, 1, none, "edit", false⟩ : EditorState).screenRows / 2) :=
  ⟨by decide, jumpToLine_centering _ 5 (by decide)⟩

/-- Walking loop of `getLogicalFromVisual` (`editor.rendering.ts:32-51`):
`rest` is the still-unvisited suffix of the document (only its length
steers the loop; heights are fetched by index `i`), `currentVisualY` the
accumulated height of the visited prefix.  The base case is the
out-of-bounds fallback `(lines.length - 1, max(0, lastHeight - 1))`. -/
def getLogicalFromVisualGo (lines : List Line) (sc gw visualY : Nat) :
    List Line → Nat → Nat → Nat × Nat
  | [], _, _ =>
    (lines.length - 1,
      max 0 (getLineVisualHeight lines sc gw (lines.length - 1) - 1))
  | _ :: rest, i, currentVisualY =>
    let height := getLineVisualHeight lines sc gw i
    if visualY < currentVisualY + height then (i, visualY - currentVisualY)
    else getLogicalFromVisualGo lines sc gw visualY rest (i + 1) (currentVisualY + height)

/-- `getLogicalFromVisual` (`editor.rendering.ts:32-51`): map a global
visual row index to `(logicalY, visualYOffset)`. -/
def getLogicalFromVisual (lines : List Line) (sc gw visualY : Nat) : Nat × Nat :=
  getLogicalFromVisualGo lines sc gw visualY lines 0 0

/-- The loop of `getLogicalFromVisual` always lands on a line index below
`lines.length` (for a non-empty document). -/
theorem getLogicalFromVisualGo_fst_lt (lines : List Line) (sc gw visualY : Nat) :
    ∀ (rest : List Line) (i acc : Nat), i + rest.length = lines.length →
      0 < lines.length →
      (getLogicalFromVisualGo lines sc gw visualY rest i acc).1 < lines.length := by
  intro rest
  induction rest with
  | nil =>
    intro i acc hlen hpos
    simp only [getLogicalFromVisualGo]
    omega
  | cons l rest ih =>
    intro i acc hlen hpos
    simp only [getLogicalFromVisualGo]
    split
    · simp only []
      simp at hlen
      omega
    · exact ih (i + 1) _ (by simp at hlen; omega) hpos

/-- When the requested visual row is at or past the total, the loop of
`getLogicalFromVisual` falls through to the clamped last-row result. -/
theorem getLogicalFromVisualGo_overflow (lines : List Line) (sc gw visualY : Nat)
    (hov : totalVisualRows lines sc gw ≤ visualY) :
    ∀ (rest : List Line) (i : Nat), i + rest.length = lines.length →
      getLogicalFromVisualGo lines sc gw visualY rest i
          (sumHeightsBefore lines sc gw i)
        = (lines.length - 1,
            max 0 (getLineVisualHeight lines sc gw (lines.length - 1) - 1)) := by
  intro rest
  induction rest with
  | nil => intro i hlen; rfl
  | cons l rest ih =>
    intro i hlen
    have hsum := sumHeightsBefore_succ lines sc gw i
    have hle : sumHeightsBefore lines sc gw (i + 1) ≤ totalVisualRows lines sc gw := by
      have : i + 1 ≤ lines.length := by simp at hlen; omega
      exact sumHeightsBefore_mono lines sc gw this
    simp only [getLogicalFromVisualGo]
    rw [if_neg (by omega), ← hsum]
    exact ih (i + 1) (by simp at hlen; omega)

/-- C8: `getLogicalFromVisual` is total on non-empty documents: the
returned logical line index is in `[0, lineCount-1]` (the offset, a `Nat`,
is non-negative by construction), and any `visualRow` at or past the total
number of visual rows clamps to the last line's last visual row. -/
theorem getLogicalFromVisual_total (lines : List Line) (sc gw visualY : Nat)
    (hne : lines ≠ []) :
    (getLogicalFromVisual lines sc gw visualY).1 < lines.length ∧
    (totalVisualRows lines sc gw ≤ visualY →
      getLogicalFromVisual lines sc gw visualY
        = (lines.length - 1,
            getLineVisualHeight lines sc gw (lines.length - 1) - 1)) := by
  have hpos : 0 < lines.length := List.length_pos.mpr hne
  constructor
  · exact getLogicalFromVisualGo_fst_lt lines sc gw visualY lines 0 0 (by simp) hpos
  · intro hov
    have h := getLogicalFromVisualGo_overflow lines sc gw visualY hov lines 0 (by simp)
    have h0 : sumHeightsBefore lines sc gw 0 = 0 := by simp [sumHeightsBefore]
    rw [h0] at h
    unfold getLogicalFromVisual
    rw [h]
    simp

/-- Witness for C8: single line `"a"`, width 8, `visualRow = 5` (past the
total of 1): the result clamps to `(0, 0)`, the last line's last row. -/
theorem getLogicalFromVisual_total_witness :
    (([['a']] : List Line) ≠ [] ∧
      totalVisualRows [['a']] 9 1 ≤ 5 ∧
      getLogicalFromVisual [['a']] 9 1 5 = (0, 0)) ∧
    ((getLogicalFromVisual [['a']] 9 1 5).1 < ([['a']] : List Line).length ∧
      (totalVisualRows [['a']] 9 1 ≤ 5 →
        getLogicalFromVisual [['a']] 9 1 5
          = (([['a']] : List Line).length - 1,
              getLineVisualHeight [['a']] 9 1 (([['a']] : List Line).length - 1) - 1))) :=
  ⟨by decide, getLogicalFromVisual_total [['a']] 9 1 5 (by decide)⟩

/-- Direction argument of `moveCursorByWord` (`'left' | 'right'`). -/
inductive WordDir
  | left
  | right
deriving DecidableEq, Repr

/-- Embedding of the forward `while` loops of `moveCursorByWord`
(`editor.navigation.ts:206-210`): `while (i < line.length && p(line[i])) i++`,
scanning the suffix `line.drop i` while carrying the index `i`. -/
def skipRun (p : Char → Bool) : List Char → Nat → Nat
  | [], i => i
  | c :: rest, i => if p c then skipRun p rest (i + 1) else i

/-- Embedding of `while (i > 0 && line[i] === ' ') i--`
(`editor.navigation.ts:194`): the guard `i > 0` is checked before the
character, so column 0 is never examined. -/
def skipSpacesBack (ln : List Char) : Nat → Nat
  | 0 => 0
  | i + 1 => if ln[i + 1]? = some ' ' then skipSpacesBack ln i else i + 1

/-- Embedding of `while (i > 0 && ln[i - 1] !== ' ') i--`
(`editor.navigation.ts:196`); an out-of-range `ln[i-1]` (`undefined`)
compares unequal to `' '`, as in JS. -/
def skipNonSpacesBack (ln : List Char) : Nat → Nat
  | 0 => 0
  | i + 1 => if ¬(ln[i]? = some ' ') then skipNonSpacesBack ln i else i + 1

/-- `moveCursorByWord` (`editor.navigation.ts:181-214`, identical in
`part_005:181-208`): word-wise movement.  Right: skip the run of
non-spaces under the cursor, then the following run of spaces; left:
mirrored (skip spaces from `cursorX - 1` leftwards, then non-spaces); at a
ln boundary move to the adjacent ln's end/start. -/
def moveCursorByWord (s : EditorState) (d : WordDir) : EditorState :=
  let ln := s.lines.getD s.cursorY []
  match d with
  | .left =>
    if s.cursorX = 0 then
      if 0 < s.cursorY then
        { s with cursorY := s.cursorY - 1
                 cursorX := (s.lines.getD (s.cursorY - 1) []).length }
      else s
    else
      { s with cursorX := skipNonSpacesBack ln (skipSpacesBack ln (s.cursorX - 1)) }
  | .right =>
    if ln.length ≤ s.cursorX then
      if s.cursorY < s.lines.length - 1 then
        { s with cursorY := s.cursorY + 1, cursorX := 0 }
      else s
    else
      let i₁ := skipRun (fun c => !(c == ' ')) (ln.drop s.cursorX) s.cursorX
      { s with cursorX := skipRun (fun c => c == ' ') (ln.drop i₁) i₁ }

/-- Modelled from the spec's words for C6 (comparison only): word-wise
right that FIRST skips the contiguous run of whitespace starting at the
cursor, THEN the following run of non-whitespace. -/
def wordRightSpecOrder (ln : List Char) (x : Nat) : Nat :=
  let j := x + ((ln.drop x).takeWhile (fun c => c == ' ')).length
  j + ((ln.drop j).takeWhile (fun c => !(c == ' '))).length

/-- The length of the run of non-space characters starting at `i` /
ending just before `i` — the `takeWhile` forms the skip loops compute. -/
def fwdRun (p : Char → Bool) (ln : List Char) (i : Nat) : Nat :=
  ((ln.drop i).takeWhile p).length

/-- Backward run: length of the maximal run of `p`-characters at positions
`i - 1, i - 2, …` of `ln`. -/
def backRun (p : Char → Bool) (ln : List Char) (i : Nat) : Nat :=
  ((ln.take i).reverse.takeWhile p).length

/-- The forward skip loop advances exactly over the `takeWhile` run. -/
theorem skipRun_eq (p : Char → Bool) :
    ∀ (cs : List Char) (i : Nat), skipRun p cs i = i + (cs.takeWhile p).length := by
  intro cs
  induction cs with
  | nil => intro i; simp [skipRun]
  | cons c rest ih =>
    intro i
    by_cases hp : p c <;> simp [skipRun, List.takeWhile, hp, ih, Nat.add_assoc]
    omega

/-- `takeWhile` never yields more elements than its input. -/
theorem takeWhile_length_le (p : Char → Bool) :
    ∀ cs : List Char, (cs.takeWhile p).length ≤ cs.length := by
  intro cs
  induction cs with
  | nil => simp
  | cons c rest ih =>
    by_cases hp : p c <;> simp [List.takeWhile, hp]
    omega

/-- Splitting off the last taken element: for `i < ln.length`,
`(ln.take (i+1)).reverse = ln[i] :: (ln.take i).reverse`. -/
theorem take_succ_reverse (ln : List Char) (i : Nat) (c : Char)
    (hc : ln[i]? = some c) :
    (ln.take (i + 1)).reverse = c :: (ln.take i).reverse := by
  rw [List.take_succ, hc]
  simp

/-- The backward space-skip loop subtracts the backward run of spaces,
floored at column 0 (the loop's `i > 0` guard). -/
theorem skipSpacesBack_eq (ln : List Char) :
    ∀ i, i < ln.length →
      skipSpacesBack ln i
        = i - min (backRun (fun c => c == ' ') ln (i + 1)) i := by
  intro i
  induction i with
  | zero => intro h; simp [skipSpacesBack]
  | succ i ih =>
    intro h
    obtain ⟨c, hc⟩ : ∃ c, ln[i + 1]? = some c :=
      ⟨_, List.getElem?_eq_getElem h⟩
    have hrev := take_succ_reverse ln (i + 1) c hc
    by_cases hsp : c = ' '
    · have hrun : backRun (fun c => c == ' ') ln (i + 1 + 1)
          = backRun (fun c => c == ' ') ln (i + 1) + 1 := by
        unfold backRun
        rw [hrev, List.takeWhile_cons]
        simp [hsp]
      have hmin : backRun (fun c => c == ' ') ln (i + 1) ≤ i + 1 := by
        unfold backRun
        calc ((ln.take (i+1)).reverse.takeWhile (fun c => c == ' ')).length
            ≤ (ln.take (i+1)).reverse.length := takeWhile_length_le _ _
          _ ≤ i + 1 := by simp [List.length_take]
      rw [show skipSpacesBack ln (i + 1) = skipSpacesBack ln i from by
            simp [skipSpacesBack, hc, hsp],
          ih (by omega), hrun]
      omega
    · have hrun : backRun (fun c => c == ' ') ln (i + 1 + 1) = 0 := by
        unfold backRun
        rw [hrev, List.takeWhile_cons]
        simp [hsp]
      rw [show skipSpacesBack ln (i + 1) = i + 1 from by
            simp [skipSpacesBack, hc, hsp],
          hrun]
      omega

/-- The backward non-space-skip loop subtracts the full backward run of
non-spaces ending just before `i` (the run cannot pass column 0). -/
theorem skipNonSpacesBack_eq (ln : List Char) :
    ∀ i, i ≤ ln.length →
      skipNonSpacesBack ln i = i - backRun (fun c => !(c == ' ')) ln i := by
  intro i
  induction i with
  | zero => intro h; simp [skipNonSpacesBack, backRun]
  | succ i ih =>
    intro h
    obtain ⟨c, hc⟩ : ∃ c, ln[i]? = some c :=
      ⟨_, List.getElem?_eq_getElem (by omega)⟩
    have hrev := take_succ_reverse ln i c hc
    by_cases hsp : c = ' '
    · have hrun : backRun (fun c => !(c == ' ')) ln (i + 1) = 0 := by
        unfold backRun
        rw [hrev, List.takeWhile_cons]
        simp [hsp]
      rw [show skipNonSpacesBack ln (i + 1) = i + 1 from by
            simp [skipNonSpacesBack, hc, hsp],
          hrun]
      omega
    · have hrun : backRun (fun c => !(c == ' ')) ln (i + 1)
          = backRun (fun c => !(c == ' ')) ln i + 1 := by
        unfold backRun
        rw [hrev, List.takeWhile_cons]
        simp [hsp]
      have hle : backRun (fun c => !(c == ' ')) ln i ≤ i := by
        unfold backRun
        calc ((ln.take i).reverse.takeWhile _).length
            ≤ (ln.take i).reverse.length := takeWhile_length_le _ _
          _ ≤ i := by simp [List.length_take]
      rw [show skipNonSpacesBack ln (i + 1) = skipNonSpacesBack ln i from by
            simp [skipNonSpacesBack, hc, hsp],
          ih (by omega), hrun]
      omega

/-- C6 is false as stated for the rightward move: on the line `"a b"` with
the cursor at column 0 (a non-space), the code first skips the non-space
run (to column 1) and then the space run (to column 2), landing at 2; the
claimed order (whitespace first, then non-whitespace) would land at 1. -/
theorem moveCursorByWord_right_order_cex :
    (moveCursorByWord ⟨[['a', ' ', 'b']], 0, 0, 0, 3, 9, 1, none, "edit", false⟩
        WordDir.right).cursorX = 2 ∧
    wordRightSpecOrder ['a', ' ', 'b'] 0 = 1 ∧
    ¬ ((moveCursorByWord ⟨[['a', ' ', 'b']], 0, 0, 0, 3, 9, 1, none, "edit", false⟩
          WordDir.right).cursorX
        = wordRightSpecOrder ['a', ' ', 'b'] 0) := by
  decide

/-- C6 amended: word-wise move right first skips the contiguous run of
NON-whitespace starting at the cursor, then the following contiguous run
of whitespace (landing at the start of the next word); move left skips
whitespace leftwards from `cursorX - 1` (the run floored at column 0 by
the loop guard), then the run of non-whitespace before that position; at
a line boundary (column 0 going left, column ≥ length going right) the
cursor lands at the end of the previous line / start of the next line,
and is unchanged at the document's first/last line. -/
theorem moveCursorByWord_spec (s : EditorState)
    (hY : s.cursorY < s.lines.length)
    (hX : s.cursorX ≤ (s.lines.getD s.cursorY []).length) :
    ((s.lines.getD s.cursorY []).length ≤ s.cursorX →
      s.cursorY < s.lines.length - 1 →
      moveCursorByWord s WordDir.right
        = { s with cursorY := s.cursorY + 1, cursorX := 0 }) ∧
    ((s.lines.getD s.cursorY []).length ≤ s.cursorX →
      ¬ s.cursorY < s.lines.length - 1 →
      moveCursorByWord s WordDir.right = s) ∧
    (s.cursorX < (s.lines.getD s.cursorY []).length →
      moveCursorByWord s WordDir.right
        = { s with cursorX :=
              (s.cursorX
                + fwdRun (fun c => !(c == ' ')) (s.lines.getD s.cursorY []) s.cursorX
                + fwdRun (fun c => c == ' ') (s.lines.getD s.cursorY [])
                    (s.cursorX
                      + fwdRun (fun c => !(c == ' ')) (s.lines.getD s.cursorY []) s.cursorX)) }) ∧
    (s.cursorX = 0 → 0 < s.cursorY →
      moveCursorByWord s WordDir.left
        = { s with cursorY := s.cursorY - 1
                   cursorX := (s.lines.getD (s.cursorY - 1) []).length }) ∧
    (s.cursorX = 0 → s.cursorY = 0 → moveCursorByWord s WordDir.left = s) ∧
    (0 < s.cursorX →
      moveCursorByWord s WordDir.left
        = { s with cursorX :=
              ((s.cursorX - 1
                  - min (backRun (fun c => c == ' ') (s.lines.getD s.cursorY []) s.cursorX)
                      (s.cursorX - 1))
                - backRun (fun c => !(c == ' ')) (s.lines.getD s.cursorY [])
                    (s.cursorX - 1
                      - min (backRun (fun c => c == ' ') (s.lines.getD s.cursorY []) s.cursorX)
                          (s.cursorX - 1))) }) := by
  refine ⟨fun h hy => ?_, fun h hy => ?_, fun h => ?_,
          fun h hy => ?_, fun h hy => ?_, fun h => ?_⟩
  · simp only [moveCursorByWord]
    rw [if_pos h, if_pos hy]
  · simp only [moveCursorByWord]
    rw [if_pos h, if_neg hy]
  · simp only [moveCursorByWord]
    rw [if_neg (by omega), skipRun_eq, skipRun_eq]
    rfl
  · simp only [moveCursorByWord]
    rw [if_pos h, if_pos hy]
  · simp only [moveCursorByWord]
    rw [if_pos h, if_neg (by omega)]
  · simp only [moveCursorByWord]
    rw [if_neg (by omega)]
    have hlen : s.cursorX - 1 < (s.lines.getD s.cursorY []).length := by omega
    rw [skipSpacesBack_eq _ _ hlen,
        show s.cursorX - 1 + 1 = s.cursorX from by omega]
    have hle : s.cursorX - 1
        - min (backRun (fun c => c == ' ') (s.lines.getD s.cursorY []) s.cursorX)
            (s.cursorX - 1)
        ≤ (s.lines.getD s.cursorY []).length := by omega
    rw [skipNonSpacesBack_eq _ _ hle]

/-- Witness for amended C6: line `"ab cd"`, cursor `(0,0)`: the rightward
word move skips the non-space run `ab` and the following space, landing at
column 3 (the start of `cd`). -/
theorem moveCursorByWord_spec_witness :
    ((⟨[['a', 'b', ' ', 'c', 'd']], 0, 0, 0, 3, 9, 1, none, "edit", false⟩ : EditorState).cursorY
        < (⟨[['a', 'b', ' ', 'c', 'd']], 0, 0, 0, 3, 9, 1, none, "edit", false⟩ : EditorState).lines.length ∧
      (moveCursorByWord ⟨[['a', 'b', ' ', 'c', 'd']], 0, 0, 0, 3, 9, 1, none, "edit", false⟩
          WordDir.right).cursorX = 3) ∧
    moveCursorByWord (⟨[['a', 'b', ' ', 'c', 'd']], 0, 0, 0, 3, 9, 1, none, "edit", false⟩ : EditorState)
        WordDir.right
      = { (⟨[['a', 'b', ' ', 'c', 'd']], 0, 0, 0, 3, 9, 1, none, "edit", false⟩ : EditorState) with
          cursorX :=
            ((⟨[['a', 'b', ' ', 'c', 'd']], 0, 0, 0, 3, 9, 1, none, "edit", false⟩ : EditorState).cursorX
              + fwdRun (fun c => !(c == ' '))
                  ((⟨[['a', 'b', ' ', 'c', 'd']], 0, 0, 0, 3, 9, 1, none, "edit", false⟩ : EditorState).lines.getD
                    (⟨[['a', 'b', ' ', 'c', 'd']], 0, 0, 0, 3, 9, 1, none, "edit", false⟩ : EditorState).cursorY [])
                  (⟨[['a', 'b', ' ', 'c', 'd']], 0, 0, 0, 3, 9, 1, none, "edit", false⟩ : EditorState).cursorX
              + fwdRun (fun c => c == ' ')
                  ((⟨[['a', 'b', ' ', 'c', 'd']], 0, 0, 0, 3, 9, 1, none, "edit", false⟩ : EditorState).lines.getD
                    (⟨[['a', 'b', ' ', 'c', 'd']], 0, 0, 0, 3, 9, 1, none, "edit", false⟩ : EditorState).cursorY [])
                  ((⟨[['a', 'b', ' ', 'c', 'd']], 0, 0, 0, 3, 9, 1, none, "edit", false⟩ : EditorState).cursorX
                    + fwdRun (fun c => !(c == ' '))
                        ((⟨[['a', 'b', ' ', 'c', 'd']], 0, 0, 0, 3, 9, 1, none, "edit", false⟩ : EditorState).lines.getD
                          (⟨[['a', 'b', ' ', 'c', 'd']], 0, 0, 0, 3, 9, 1, none, "edit", false⟩ : EditorState).cursorY [])
                        (⟨[['a', 'b', ' ', 'c', 'd']], 0, 0, 0, 3, 9, 1, none, "edit", false⟩ : EditorState).cursorX)) } :=
  ⟨by decide,
   (moveCursorByWord_spec _ (by decide) (by decide)).2.2.1 (by decide)⟩

/-- The `pairs` map of `matchBracket` (`editor.navigation.ts:219`):
opening bracket to its closer. -/
def openToClose (c : Char) : Option Char :=
  if c = '(' then some ')'
  else if c = '[' then some ']'
  else if c = '\x7b' then some '\x7d'
  else none

/-- The `revPairs` map of `matchBracket` (`editor.navigation.ts:220`):
closing bracket to its opener. -/
def closeToOpen (c : Char) : Option Char :=
  if c = ')' then some '('
  else if c = ']' then some '['
  else if c = '\x7d' then some '\x7b'
  else none

/-- Inner forward scan of `matchBracket` (`editor.navigation.ts:229-239`):
walk the remaining characters of one row (the suffix from `startX`,
carried as index `x`) updating the depth counter — increment on the
opener under the cursor, decrement on its closer — and return the column
where the depth reaches 0, else the final depth. -/
def scanRowFwd (openC closeC : Char) : List Char → Nat → Nat → Option Nat × Nat
  | [], _, depth => (none, depth)
  | c :: rest, x, depth =>
    let d := if c = openC then depth + 1 else if c = closeC then depth - 1 else depth
    if d = 0 then (some x, 0) else scanRowFwd openC closeC rest (x + 1) d

/-- Outer forward scan of `matchBracket` (`editor.navigation.ts:226-240`):
rows from the cursor's line downward, the first starting after the cursor
(`startX`), the rest from column 0, threading the depth. -/
def scanRowsFwd (openC closeC : Char) : List Line → Nat → Nat → Nat → Option (Nat × Nat)
  | [], _, _, _ => none
  | l :: rest, y, startX, depth =>
    match scanRowFwd openC closeC (l.drop startX) startX depth with
    | (some x, _) => some (y, x)
    | (none, d₁) => scanRowsFwd openC closeC rest (y + 1) 0 d₁

/-- Inner backward scan of `matchBracket` (`editor.navigation.ts:248-258`):
the row's characters in reverse order (position index `x` descending). -/
def scanRowBwd (closeC openC : Char) : List Char → Nat → Nat → Option Nat × Nat
  | [], _, depth => (none, depth)
  | c :: rest, x, depth =>
    let d := if c = closeC then depth + 1 else if c = openC then depth - 1 else depth
    if d = 0 then (some x, 0) else scanRowBwd closeC openC rest (x - 1) d

/-- Outer backward scan of `matchBracket` (`editor.navigation.ts:245-259`):
rows from the cursor's line upward; each supplied row is scanned from its
last character backward (`startX = length - 1`; the caller passes the
cursor row pre-truncated to the columns before the cursor). -/
def scanRowsBwd (closeC openC : Char) : List Line → Nat → Nat → Option (Nat × Nat)
  | [], _, _ => none
  | l :: rest, y, depth =>
    match scanRowBwd closeC openC l.reverse (l.length - 1) depth with
    | (some x, _) => some (y, x)
    | (none, d₁) => scanRowsBwd closeC openC rest (y - 1) d₁

/-- `matchBracket` (`editor.navigation.ts:216-261`, identical in
`part_005:210-251`): if the character under the cursor is an opening
bracket, scan forward for the column where the depth counter returns to
zero and move there (then `scroll()`); if a closing bracket, scan
backward symmetrically; otherwise (no bracket, no match, or cursor past
end-of-line, where `line[cursorX]` is `undefined`) leave the state
unchanged. -/
def matchBracket (s : EditorState) : EditorState :=
  let line := s.lines.getD s.cursorY []
  match line.get? s.cursorX with
  | none => s
  | some c =>
    match openToClose c with
    | some closeC =>
      match scanRowsFwd c closeC (s.lines.drop s.cursorY) s.cursorY (s.cursorX + 1) 1 with
      | some (y, x) => scroll { s with cursorY := y, cursorX := x }
      | none => s
    | none =>
      match closeToOpen c with
      | some openC =>
        match scanRowsBwd c openC
            (line.take s.cursorX :: (s.lines.take s.cursorY).reverse) s.cursorY 1 with
        | some (y, x) => scroll { s with cursorY := y, cursorX := x }
        | none => s
      | none => s

/-- When the forward row scan reports a hit, the hit column carries the
closing bracket and lies at or after the scan start. -/
theorem scanRowFwd_found (openC closeC : Char) :
    ∀ (cs : List Char) (x depth : Nat), depth ≠ 0 →
      ∀ x', (scanRowFwd openC closeC cs x depth).1 = some x' →
        ∃ k, k < cs.length ∧ x' = x + k ∧ cs.get? k = some closeC := by
  intro cs
  induction cs with
  | nil => intro x depth hd x' h; simp [scanRowFwd] at h
  | cons c rest ih =>
    intro x depth hd x' h
    by_cases hopen : c = openC
    · rw [show scanRowFwd openC closeC (c :: rest) x depth
          = scanRowFwd openC closeC rest (x + 1) (depth + 1) from by
        simp [scanRowFwd, hopen]] at h
      obtain ⟨k, hk, hx, hc⟩ := ih (x + 1) (depth + 1) (by omega) x' h
      exact ⟨k + 1, by simp [List.length_cons]; omega, by omega, by simpa using hc⟩
    · by_cases hclose : c = closeC
      · subst hclose
        by_cases hz : depth - 1 = 0
        · rw [show scanRowFwd openC c (c :: rest) x depth = (some x, 0) from by
              simp [scanRowFwd, hopen, hz]] at h
          simp at h
          exact ⟨0, by simp, by omega, by simp⟩
        · rw [show scanRowFwd openC c (c :: rest) x depth
              = scanRowFwd openC c rest (x + 1) (depth - 1) from by
            simp [scanRowFwd, hopen, hz]] at h
          obtain ⟨k, hk, hx, hc⟩ := ih (x + 1) (depth - 1) hz x' h
          exact ⟨k + 1, by simp [List.length_cons]; omega, by omega, by simpa using hc⟩
      · rw [show scanRowFwd openC closeC (c :: rest) x depth
            = scanRowFwd openC closeC rest (x + 1) depth from by
          simp [scanRowFwd, hopen, hclose, hd]] at h
        obtain ⟨k, hk, hx, hc⟩ := ih (x + 1) depth hd x' h
        exact ⟨k + 1, by simp [List.length_cons]; omega, by omega, by simpa using hc⟩

/-- A forward row scan that finds nothing hands a non-zero depth to the
next row. -/
theorem scanRowFwd_none (openC closeC : Char) :
    ∀ (cs : List Char) (x depth : Nat), depth ≠ 0 →
      (scanRowFwd openC closeC cs x depth).1 = none →
      (scanRowFwd openC closeC cs x depth).2 ≠ 0 := by
  intro cs
  induction cs with
  | nil => intro x depth hd _; simpa [scanRowFwd] using hd
  | cons c rest ih =>
    intro x depth hd h
    by_cases hz : (if c = openC then depth + 1 else if c = closeC then depth - 1 else depth) = 0
    · rw [show scanRowFwd openC closeC (c :: rest) x depth = (some x, 0) from by
          simp [scanRowFwd, hz]] at h
      simp at h
    · have heq : scanRowFwd openC closeC (c :: rest) x depth
          = scanRowFwd openC closeC rest (x + 1)
              (if c = openC then depth + 1 else if c = closeC then depth - 1 else depth) := by
        simp [scanRowFwd, hz]
      rw [heq] at h ⊢
      exact ih (x + 1) _ hz h

/-- When the multi-row forward scan reports a hit `(y', x')`, the hit is
strictly after the scan origin and carries the closing bracket. -/
theorem scanRowsFwd_found (openC closeC : Char) :
    ∀ (rows : List Line) (y startX depth : Nat), depth ≠ 0 →
      ∀ p : Nat × Nat, scanRowsFwd openC closeC rows y startX depth = some p →
        y ≤ p.1 ∧ (p.1 = y → startX ≤ p.2) ∧
        (rows.getD (p.1 - y) []).get? p.2 = some closeC := by
  intro rows
  induction rows with
  | nil => intro y sx depth hd p h; simp [scanRowsFwd] at h
  | cons l rest ih =>
    intro y sx depth hd p h
    rw [show scanRowsFwd openC closeC (l :: rest) y sx depth
        = (match scanRowFwd openC closeC (l.drop sx) sx depth with
           | (some x, _) => some (y, x)
           | (none, d₁) => scanRowsFwd openC closeC rest (y + 1) 0 d₁) from rfl] at h
    rcases hscan : scanRowFwd openC closeC (l.drop sx) sx depth with ⟨o, d₁⟩
    rw [hscan] at h
    cases o with
    | some x =>
      obtain rfl : (y, x) = p := by simpa using h
      obtain ⟨k, hk, hx, hc⟩ :=
        scanRowFwd_found openC closeC (l.drop sx) sx depth hd x (by rw [hscan])
      refine ⟨le_refl _, fun _ => by omega, ?_⟩
      simp only [Nat.sub_self, List.getD_cons_zero]
      rw [show x = sx + k from hx, ← List.get?_drop]
      exact hc
    | none =>
      have hd₁ : d₁ ≠ 0 := by
        have hnone := scanRowFwd_none openC closeC (l.drop sx) sx depth hd
        rw [hscan] at hnone
        exact hnone rfl
      obtain ⟨h1, h2, h3⟩ := ih (y + 1) 0 d₁ hd₁ p h
      refine ⟨by omega, fun hpy => by omega, ?_⟩
      rw [show p.1 - y = (p.1 - (y + 1)) + 1 from by omega]
      simpa using h3

/-- When the backward row scan reports a hit, the hit column carries the
opening bracket and lies at or before the scan start. -/
theorem scanRowBwd_found (closeC openC : Char) :
    ∀ (cs : List Char) (x depth : Nat), depth ≠ 0 → cs.length ≤ x + 1 →
      ∀ x', (scanRowBwd closeC openC cs x depth).1 = some x' →
        ∃ k, k < cs.length ∧ x' + k = x ∧ cs.get? k = some openC := by
  intro cs
  induction cs with
  | nil => intro x depth hd hlen x' h; simp [scanRowBwd] at h
  | cons c rest ih =>
    intro x depth hd hlen x' h
    have hrest : rest.length ≤ (x - 1) + 1 := by
      simp [List.length_cons] at hlen
      omega
    by_cases hclose : c = closeC
    · rw [show scanRowBwd closeC openC (c :: rest) x depth
          = scanRowBwd closeC openC rest (x - 1) (depth + 1) from by
        simp [scanRowBwd, hclose]] at h
      obtain ⟨k, hk, hx, hc⟩ := ih (x - 1) (depth + 1) (by omega) hrest x' h
      refine ⟨k + 1, by simp [List.length_cons]; omega, ?_, by simpa using hc⟩
      simp [List.length_cons] at hlen
      omega
    · by_cases hopen : c = openC
      · subst hopen
        by_cases hz : depth - 1 = 0
        · rw [show scanRowBwd closeC c (c :: rest) x depth = (some x, 0) from by
              simp [scanRowBwd, hclose, hz]] at h
          simp at h
          exact ⟨0, by simp, by omega, by simp⟩
        · rw [show scanRowBwd closeC c (c :: rest) x depth
              = scanRowBwd closeC c rest (x - 1) (depth - 1) from by
            simp [scanRowBwd, hclose, hz]] at h
          obtain ⟨k, hk, hx, hc⟩ := ih (x - 1) (depth - 1) hz hrest x' h
          refine ⟨k + 1, by simp [List.length_cons]; omega, ?_, by simpa using hc⟩
          simp [List.length_cons] at hlen
          omega
      · rw [show scanRowBwd closeC openC (c :: rest) x depth
            = scanRowBwd closeC openC rest (x - 1) depth from by
          simp [scanRowBwd, hclose, hopen, hd]] at h
        obtain ⟨k, hk, hx, hc⟩ := ih (x - 1) depth hd hrest x' h
        refine ⟨k + 1, by simp [List.length_cons]; omega, ?_, by simpa using hc⟩
        simp [List.length_cons] at hlen
        omega

/-- A backward row scan that finds nothing hands a non-zero depth to the
next row. -/
theorem scanRowBwd_none (closeC openC : Char) :
    ∀ (cs : List Char) (x depth : Nat), depth ≠ 0 →
      (scanRowBwd closeC openC cs x depth).1 = none →
      (scanRowBwd closeC openC cs x depth).2 ≠ 0 := by
  intro cs
  induction cs with
  | nil => intro x depth hd _; simpa [scanRowBwd] using hd
  | cons c rest ih =>
    intro x depth hd h
    by_cases hz : (if c = closeC then depth + 1 else if c = openC then depth - 1 else depth) = 0
    · rw [show scanRowBwd closeC openC (c :: rest) x depth = (some x, 0) from by
          simp [scanRowBwd, hz]] at h
      simp at h
    · have heq : scanRowBwd closeC openC (c :: rest) x depth
          = scanRowBwd closeC openC rest (x - 1)
              (if c = closeC then depth + 1 else if c = openC then depth - 1 else depth) := by
        simp [scanRowBwd, hz]
      rw [heq] at h ⊢
      exact ih (x - 1) _ hz h

/-- When the multi-row backward scan reports a hit `(y', x')`, the hit row
is at or above the scan origin and the hit column carries the opener,
within the supplied row's truncated length. -/
theorem scanRowsBwd_found (closeC openC : Char) :
    ∀ (rows : List Line) (y depth : Nat), depth ≠ 0 → rows.length ≤ y + 1 →
      ∀ p : Nat × Nat, scanRowsBwd closeC openC rows y depth = some p →
        ∃ j, j < rows.length ∧ p.1 + j = y ∧
          p.2 < (rows.getD j []).length ∧ (rows.getD j []).get? p.2 = some openC := by
  intro rows
  induction rows with
  | nil => intro y depth hd hlen p h; simp [scanRowsBwd] at h
  | cons l rest ih =>
    intro y depth hd hlen p h
    rw [show scanRowsBwd closeC openC (l :: rest) y depth
        = (match scanRowBwd closeC openC l.reverse (l.length - 1) depth with
           | (some x, _) => some (y, x)
           | (none, d₁) => scanRowsBwd closeC openC rest (y - 1) d₁) from rfl] at h
    rcases hscan : scanRowBwd closeC openC l.reverse (l.length - 1) depth with ⟨o, d₁⟩
    rw [hscan] at h
    cases o with
    | some x =>
      obtain rfl : (y, x) = p := by simpa using h
      obtain ⟨k, hk, hx, hc⟩ :=
        scanRowBwd_found closeC openC l.reverse (l.length - 1) depth hd
          (by simp [List.length_reverse]; omega) x (by rw [hscan])
      simp only [List.length_reverse] at hk
      refine ⟨0, by simp, by simp, ?_, ?_⟩
      · simp only [List.getD_cons_zero]
        omega
      · simp only [List.getD_cons_zero]
        rw [List.get?_reverse (by omega)] at hc
        rw [show x = l.length - 1 - k from by omega]
        exact hc
    | none =>
      have hd₁ : d₁ ≠ 0 := by
        have hnone := scanRowBwd_none closeC openC l.reverse (l.length - 1) depth hd
        rw [hscan] at hnone
        exact hnone rfl
      have hrest : rest.length ≤ (y - 1) + 1 := by
        simp [List.length_cons] at hlen
        omega
      obtain ⟨j, hj, hsum, hlt, hc⟩ := ih (y - 1) d₁ hd₁ hrest p h
      refine ⟨j + 1, by simp [List.length_cons]; omega, ?_, by simpa using hlt,
              by simpa using hc⟩
      simp [List.length_cons] at hlen
      omega

/-- A character with a `revPairs` entry has no `pairs` entry: the closers
`)`, `]`, `}` are not openers. -/
theorem openToClose_of_closeToOpen (c o : Char) (h : closeToOpen c = some o) :
    openToClose c = none := by
  unfold closeToOpen at h
  split_ifs at h with h1 h2 h3
  · subst h1; decide
  · subst h2; decide
  · subst h3; decide

/-- C9: bracket matching.  If the character under the cursor is not a
bracket (or the cursor is past end-of-line), the state is unchanged.  If
it is an opener, the cursor either stays (no match) or lands on a
position strictly after it holding the matching closer (found by the
forward depth scan); if a closer, symmetrically backward.  Lines are
never modified. -/
theorem matchBracket_spec (s : EditorState) (hY : s.cursorY < s.lines.length) :
    ((s.lines.getD s.cursorY []).get? s.cursorX = none → matchBracket s = s) ∧
    (∀ c, (s.lines.getD s.cursorY []).get? s.cursorX = some c →
      openToClose c = none → closeToOpen c = none → matchBracket s = s) ∧
    (∀ c closeC, (s.lines.getD s.cursorY []).get? s.cursorX = some c →
      openToClose c = some closeC →
      matchBracket s = s ∨
      ((matchBracket s).lines = s.lines ∧
        (s.lines.getD (matchBracket s).cursorY []).get? (matchBracket s).cursorX
          = some closeC ∧
        (s.cursorY < (matchBracket s).cursorY ∨
          (s.cursorY = (matchBracket s).cursorY ∧ s.cursorX < (matchBracket s).cursorX)))) ∧
    (∀ c openC, (s.lines.getD s.cursorY []).get? s.cursorX = some c →
      closeToOpen c = some openC →
      matchBracket s = s ∨
      ((matchBracket s).lines = s.lines ∧
        (s.lines.getD (matchBracket s).cursorY []).get? (matchBracket s).cursorX
          = some openC ∧
        ((matchBracket s).cursorY < s.cursorY ∨
          ((matchBracket s).cursorY = s.cursorY ∧ (matchBracket s).cursorX < s.cursorX)))) := by
  refine ⟨fun hnone => ?_, fun c hchar hop hcl => ?_,
          fun c closeC hchar hop => ?_, fun c openC hchar hcl => ?_⟩
  · simp only [matchBracket, hnone]
  · simp only [matchBracket, hchar, hop, hcl]
  · rcases hscan : scanRowsFwd c closeC (s.lines.drop s.cursorY) s.cursorY
        (s.cursorX + 1) 1 with _ | ⟨y', x'⟩
    · exact Or.inl (by simp only [matchBracket, hchar, hop, hscan])
    · have hmb : matchBracket s = scroll { s with cursorY := y', cursorX := x' } := by
        simp only [matchBracket, hchar, hop, hscan]
      obtain ⟨h1, h2, h3⟩ := scanRowsFwd_found c closeC (s.lines.drop s.cursorY)
        s.cursorY (s.cursorX + 1) 1 (by omega) (y', x') hscan
      replace h1 : s.cursorY ≤ y' := h1
      replace h2 : y' = s.cursorY → s.cursorX + 1 ≤ x' := h2
      replace h3 : ((s.lines.drop s.cursorY).getD (y' - s.cursorY) []).get? x'
          = some closeC := h3
      have hrow : (s.lines.drop s.cursorY).getD (y' - s.cursorY) []
          = s.lines.getD y' [] := by
        simp only [List.getD_eq_getElem?_getD]
        rw [List.getElem?_drop, show s.cursorY + (y' - s.cursorY) = y' from by omega]
      obtain ⟨hl, hx, hy, -, -, -⟩ :=
        scroll_fields { s with cursorY := y', cursorX := x' }
      refine Or.inr ⟨by rw [hmb, hl], ?_, ?_⟩
      · rw [hmb, hx, hy]
        rw [hrow] at h3
        exact h3
      · rw [hmb, hx, hy]
        rcases Nat.lt_or_ge s.cursorY y' with hlt | hge
        · exact Or.inl hlt
        · have heq : y' = s.cursorY := by omega
          have hxlt : s.cursorX < x' := by have := h2 heq; omega
          exact Or.inr ⟨heq.symm, hxlt⟩
  · have hop : openToClose c = none := openToClose_of_closeToOpen c openC hcl
    rcases hscan : scanRowsBwd c openC
        ((s.lines.getD s.cursorY []).take s.cursorX
          :: (s.lines.take s.cursorY).reverse) s.cursorY 1 with _ | ⟨y', x'⟩
    · exact Or.inl (by simp only [matchBracket, hchar, hop, hcl, hscan])
    · have hmb : matchBracket s = scroll { s with cursorY := y', cursorX := x' } := by
        simp only [matchBracket, hchar, hop, hcl, hscan]
      have hlen : ((s.lines.getD s.cursorY []).take s.cursorX
          :: (s.lines.take s.cursorY).reverse).length ≤ s.cursorY + 1 := by
        simp only [List.length_cons, List.length_reverse, List.length_take]
        omega
      obtain ⟨j, hj, hsum, hlt, hc⟩ := scanRowsBwd_found c openC _ s.cursorY 1
        (by omega) hlen (y', x') hscan
      replace hsum : y' + j = s.cursorY := hsum
      replace hlt : x' < (((s.lines.getD s.cursorY []).take s.cursorX
          :: (s.lines.take s.cursorY).reverse).getD j []).length := hlt
      replace hc : (((s.lines.getD s.cursorY []).take s.cursorX
          :: (s.lines.take s.cursorY).reverse).getD j []).get? x' = some openC := hc
      obtain ⟨hl, hx, hy, -, -, -⟩ :=
        scroll_fields { s with cursorY := y', cursorX := x' }
      cases j with
      | zero =>
        have hy' : y' = s.cursorY := by omega
        simp only [List.getD_cons_zero] at hlt hc
        have hxlt : x' < s.cursorX := by
          have := List.length_take s.cursorX (s.lines.getD s.cursorY [])
          omega
        refine Or.inr ⟨by rw [hmb, hl], ?_, ?_⟩
        · rw [hmb, hx, hy, hy']
          rw [List.get?_take hxlt] at hc
          exact hc
        · rw [hmb, hx, hy]
          exact Or.inr ⟨hy', hxlt⟩
      | succ j =>
        have htklen : (s.lines.take s.cursorY).length = s.cursorY := by
          rw [List.length_take]
          omega
        have hjlen : j < s.cursorY := by
          have hcons : (((s.lines.getD s.cursorY []).take s.cursorX)
              :: (s.lines.take s.cursorY).reverse).length
              = (s.lines.take s.cursorY).length + 1 := by
            simp
          omega
        simp only [List.getD_cons_succ] at hlt hc
        have hy' : y' = s.cursorY - (j + 1) := by omega
        have hrow : ((s.lines.take s.cursorY).reverse).getD j []
            = s.lines.getD y' [] := by
          simp only [List.getD_eq_getElem?_getD]
          rw [List.getElem?_reverse (by rw [htklen]; exact hjlen), htklen,
              List.getElem?_take_of_lt (by omega),
              show s.cursorY - 1 - j = y' from by omega]
        refine Or.inr ⟨by rw [hmb, hl], ?_, ?_⟩
        · rw [hmb, hx, hy]
          rw [hrow] at hc
          exact hc
        · rw [hmb, hx, hy]
          have hylt : y' < s.cursorY := by omega
          exact Or.inl hylt

/-- Witness for C9: the spec scenario — line `"function() {}"`, cursor at
column 8 (`(`): the match lands at column 9 (`)`) on the same line. -/
theorem matchBracket_spec_witness :
    ((⟨[['f','u','n','c','t','i','o','n','(',')',' ','\x7b','\x7d']],
        8, 0, 0, 3, 20, 1, none, "edit", false⟩ : EditorState).cursorY
        < (⟨[['f','u','n','c','t','i','o','n','(',')',' ','\x7b','\x7d']],
            8, 0, 0, 3, 20, 1, none, "edit", false⟩ : EditorState).lines.length ∧
      (matchBracket ⟨[['f','u','n','c','t','i','o','n','(',')',' ','\x7b','\x7d']],
          8, 0, 0, 3, 20, 1, none, "edit", false⟩).cursorX = 9 ∧
      (matchBracket ⟨[['f','u','n','c','t','i','o','n','(',')',' ','\x7b','\x7d']],
          8, 0, 0, 3, 20, 1, none, "edit", false⟩).cursorY = 0) ∧
    (matchBracket (⟨[['f','u','n','c','t','i','o','n','(',')',' ','\x7b','\x7d']],
        8, 0, 0, 3, 20, 1, none, "edit", false⟩ : EditorState)
        = (⟨[['f','u','n','c','t','i','o','n','(',')',' ','\x7b','\x7d']],
            8, 0, 0, 3, 20, 1, none, "edit", false⟩ : EditorState) ∨
      ((matchBracket (⟨[['f','u','n','c','t','i','o','n','(',')',' ','\x7b','\x7d']],
          8, 0, 0, 3, 20, 1, none, "edit", false⟩ : EditorState)).lines
          = (⟨[['f','u','n','c','t','i','o','n','(',')',' ','\x7b','\x7d']],
              8, 0, 0, 3, 20, 1, none, "edit", false⟩ : EditorState).lines ∧
        ((⟨[['f','u','n','c','t','i','o','n','(',')',' ','\x7b','\x7d']],
            8, 0, 0, 3, 20, 1, none, "edit", false⟩ : EditorState).lines.getD
          (matchBracket (⟨[['f','u','n','c','t','i','o','n','(',')',' ','\x7b','\x7d']],
              8, 0, 0, 3, 20, 1, none, "edit", false⟩ : EditorState)).cursorY []).get?
          (matchBracket (⟨[['f','u','n','c','t','i','o','n','(',')',' ','\x7b','\x7d']],
              8, 0, 0, 3, 20, 1, none, "edit", false⟩ : EditorState)).cursorX
          = some ')' ∧
        ((⟨[['f','u','n','c','t','i','o','n','(',')',' ','\x7b','\x7d']],
            8, 0, 0, 3, 20, 1, none, "edit", false⟩ : EditorState).cursorY
            < (matchBracket (⟨[['f','u','n','c','t','i','o','n','(',')',' ','\x7b','\x7d']],
                8, 0, 0, 3, 20, 1, none, "edit", false⟩ : EditorState)).cursorY ∨
          ((⟨[['f','u','n','c','t','i','o','n','(',')',' ','\x7b','\x7d']],
              8, 0, 0, 3, 20, 1, none, "edit", false⟩ : EditorState).cursorY
              = (matchBracket (⟨[['f','u','n','c','t','i','o','n','(',')',' ','\x7b','\x7d']],
                  8, 0, 0, 3, 20, 1, none, "edit", false⟩ : EditorState)).cursorY ∧
            (⟨[['f','u','n','c','t','i','o','n','(',')',' ','\x7b','\x7d']],
                8, 0, 0, 3, 20, 1, none, "edit", false⟩ : EditorState).cursorX
              < (matchBracket (⟨[['f','u','n','c','t','i','o','n','(',')',' ','\x7b','\x7d']],
                  8, 0, 0, 3, 20, 1, none, "edit", false⟩ : EditorState)).cursorX)))) :=
  ⟨by decide,
   (matchBracket_spec _ (by decide)).2.2.1 '(' ')' (by decide) (by decide)⟩

/-- The `CliEditor` constructor (`editor.ts:93-97`): split the initial
content on newlines (`String.split` never yields an empty array, like
`String.splitOn`) and replace an empty result with `[""]`. -/
def mkEditor (initialContent : String) : EditorState :=
  let lines := (initialContent.splitOn "\n").map String.toList
  { lines := if lines.length = 0 then [[]] else lines
    cursorX := 0, cursorY := 0, rowOffset := 0
    screenRows := 0, screenCols := 0, gutterWidth := 5
    selectionAnchor := none, mode := "edit", isDirty := false }

/-- `getNormalizedSelection` (`editor.selection.ts:46-57`): the anchor and
the cursor ordered so that `start` comes first in document order. -/
def getNormalizedSelection (s : EditorState) : Option (Pos × Pos) :=
  match s.selectionAnchor with
  | none => none
  | some p1 =>
    let p2 : Pos := ⟨s.cursorX, s.cursorY⟩
    if p1.y < p2.y ∨ (p1.y = p2.y ∧ p1.x < p2.x) then some (p1, p2) else some (p2, p1)

/-- The common epilogue of the deleting operations: `if
(this.lines.length === 0) this.lines = ['']` — `deleteBackward` and
`deleteForward` additionally reset the cursor to the origin
(`resetCursor = true`), `deleteSelectedText` and `cutLine` do not. -/
def restoreIfEmpty (resetCursor : Bool) (s : EditorState) : EditorState :=
  if s.lines.length = 0 then
    if resetCursor then { s with lines := [[]], cursorY := 0, cursorX := 0 }
    else { s with lines := [[]] }
  else s

/-- `deleteSelectedText` (`editor.selection.ts:111-146`): join the text
before the selection start with the text after the selection end, splice
out the lines strictly between, move the cursor to the former start,
clear the selection, and restore `[""]` if the line list became empty.
(`splice(start.y + 1, count)` is `take (start.y + 1) ++ drop (start.y + 1
+ count)`; the clipboard-free embedding returns the new state, dropping
the source's boolean result.) -/
def deleteSelectedText (s : EditorState) : EditorState :=
  match getNormalizedSelection s with
  | none => s
  | some (st, en) =>
    let startLineContent := (s.lines.getD st.y []).take st.x
    let endLineContent := (s.lines.getD en.y []).drop en.x
    let lines₁ := s.lines.set st.y (startLineContent ++ endLineContent)
    let linesToDeleteCount := en.y - st.y
    let lines₂ := if 0 < linesToDeleteCount
      then lines₁.take (st.y + 1) ++ lines₁.drop (st.y + 1 + linesToDeleteCount)
      else lines₁
    let s₁ := { s with lines := lines₂, cursorY := st.y, cursorX := st.x,
                       selectionAnchor := none, isDirty := true }
    restoreIfEmpty false s₁

/-- `deleteBackward` (`editor.editing.ts:94-112`): delete the character
before the cursor, or join with the previous line at column 0; restore
`[""]` (cursor at the origin) if the line list became empty. -/
def deleteBackward (s : EditorState) : EditorState :=
  let s₁ :=
    if 0 < s.cursorX then
      let line := s.lines.getD s.cursorY []
      { s with lines := s.lines.set s.cursorY
                 (line.take (s.cursorX - 1) ++ line.drop s.cursorX)
               cursorX := s.cursorX - 1 }
    else if 0 < s.cursorY then
      let currentLine := s.lines.getD s.cursorY []
      let previousLine := s.lines.getD (s.cursorY - 1) []
      let lines₁ := s.lines.set (s.cursorY - 1) (previousLine ++ currentLine)
      { s with cursorX := previousLine.length
               lines := lines₁.take s.cursorY ++ lines₁.drop (s.cursorY + 1)
               cursorY := s.cursorY - 1 }
    else s
  { restoreIfEmpty true s₁ with isDirty := true }

/-- `deleteForward` (`editor.editing.ts:117-131`): delete the character
under the cursor, or join with the next line at end-of-line; restore
`[""]` if the line list became empty. -/
def deleteForward (s : EditorState) : EditorState :=
  let line := s.lines.getD s.cursorY []
  let s₁ :=
    if s.cursorX < line.length then
      { s with lines := s.lines.set s.cursorY
                 (line.take s.cursorX ++ line.drop (s.cursorX + 1)) }
    else if s.cursorY < s.lines.length - 1 then
      let nextLine := s.lines.getD (s.cursorY + 1) []
      let lines₁ := s.lines.set s.cursorY (line ++ nextLine)
      { s with lines := lines₁.take (s.cursorY + 1) ++ lines₁.drop (s.cursorY + 2) }
    else s
  { restoreIfEmpty true s₁ with isDirty := true }

/-- `cutLine` (`editor.clipboard.ts:64-81`): when the document is not the
single empty line, splice out the cursor's line, clamp `cursorY`, restore
`[""]` if the line list became empty, and move the cursor to column 0
(the clipboard write is an external side effect, not part of the state). -/
def cutLine (s : EditorState) : EditorState :=
  if 1 < s.lines.length ∨ (s.lines.length = 1 ∧ s.lines.getD 0 [] ≠ []) then
    let lines₁ := s.lines.take s.cursorY ++ s.lines.drop (s.cursorY + 1)
    let cy₁ := if lines₁.length ≤ s.cursorY then lines₁.length - 1 else s.cursorY
    let lines₂ := if lines₁.length = 0 then [[]] else lines₁
    { s with lines := lines₂, cursorY := cy₁, cursorX := 0, isDirty := true }
  else s

/-- The deleting operations of C10, applied as a sequence. -/
inductive EditorOp
  | delSelected
  | delBackward
  | delForward
  | cut
deriving DecidableEq, Repr

/-- Apply one editing operation. -/
def applyOp (s : EditorState) : EditorOp → EditorState
  | .delSelected => deleteSelectedText s
  | .delBackward => deleteBackward s
  | .delForward => deleteForward s
  | .cut => cutLine s

/-- Apply a sequence of editing operations in order. -/
def applyOps (s : EditorState) (ops : List EditorOp) : EditorState :=
  ops.foldl applyOp s

/-- The restore epilogue always leaves at least one line. -/
theorem restoreIfEmpty_length_pos (b : Bool) (s : EditorState) :
    1 ≤ (restoreIfEmpty b s).lines.length := by
  unfold restoreIfEmpty
  split
  · split <;> simp
  · rename_i hne
    exact Nat.pos_of_ne_zero hne

/-- Each deleting operation keeps the line list non-empty. -/
theorem applyOp_length_pos (s : EditorState) (op : EditorOp)
    (h : 1 ≤ s.lines.length) : 1 ≤ (applyOp s op).lines.length := by
  cases op with
  | delSelected =>
    unfold applyOp deleteSelectedText
    rcases getNormalizedSelection s with - | ⟨st, en⟩
    · exact h
    · exact restoreIfEmpty_length_pos false _
  | delBackward =>
    unfold applyOp deleteBackward
    exact restoreIfEmpty_length_pos true _
  | delForward =>
    unfold applyOp deleteForward
    exact restoreIfEmpty_length_pos true _
  | cut =>
    unfold applyOp cutLine
    dsimp only
    split
    · dsimp only
      split
      · simp
      · rename_i hne
        exact Nat.pos_of_ne_zero hne
    · exact h

/-- C10: the document line list is never empty.  The constructor
guarantees at least one line (an empty split result is replaced by
`[""]`), and every sequence of the deleting operations
(`deleteSelectedText`, `deleteBackward`, `deleteForward`, `cutLine`)
preserves `lineCount ≥ 1`, each restoring `[""]` when it would leave
zero lines. -/
theorem lines_never_empty (initialContent : String) (ops : List EditorOp) :
    1 ≤ (applyOps (mkEditor initialContent) ops).lines.length := by
  have hstep : ∀ (l : List EditorOp) (t : EditorState), 1 ≤ t.lines.length →
      1 ≤ (applyOps t l).lines.length := by
    intro l
    induction l with
    | nil => intro t ht; exact ht
    | cons op rest ih =>
      intro t ht
      exact ih (applyOp t op) (applyOp_length_pos t op ht)
  refine hstep ops (mkEditor initialContent) ?_
  unfold mkEditor
  dsimp only
  split
  · simp
  · omega

/-- One row of the materialized `visualRows` table (`types.ts:16-20`):
the logical line it belongs to, the logical column its chunk starts at,
and the chunk's text. -/
structure VisualRow where
  logicalY : Nat
  logicalXStart : Nat
  content : Line
deriving DecidableEq, Repr

/-- Modelled from the spec: the rows a single logical line contributes to
the `visualRows` table.  `recalculateVisualRows`, the builder of the
table read by `editor.navigation.ts`, is not among the sources under
`src/` (only its callers are); spec §3 defines the geometry it must
produce: for content width `W ≥ 1` a line of length `L` occupies
`max(1, ceil(L/W))` visual rows, row `k` spanning logical columns
`[k·W, min(L, (k+1)·W))`, and a zero-length line occupies one row with
an empty span. -/
def lineVisualRows (W y : Nat) (l : Line) : List VisualRow :=
  (List.range (lineHeight l.length W)).map
    (fun k => ⟨y, k * W, (l.drop (k * W)).take W⟩)

/-- Modelled from the spec: the full table, lines in order, `y` the index
of the first line of the remaining list. -/
def buildVisualRows (W : Nat) : List Line → Nat → List VisualRow
  | [], _ => []
  | l :: rest, y => lineVisualRows W y l ++ buildVisualRows W rest (y + 1)

/-- Modelled from the spec: `recalculateVisualRows` — the freshly
recomputed `visualRows` array for the whole document. -/
def recalculateVisualRows (lines : List Line) (W : Nat) : List VisualRow :=
  buildVisualRows W lines 0

/-- The scan loop of the materialized-table `findCurrentVisualRowIndex`
(`editor.navigation.ts:17-35`): find the first table row of the cursor's
logical line whose chunk contains `cursorX` (inclusive at both ends);
at a wrapped-chunk start (`cursorX = logicalXStart > 0`, `i > 0`) return
the previous row; past the cursor's line return the previous row. -/
def findIdxGo (cY cX : Nat) : List VisualRow → Nat → Option Nat
  | [], _ => none
  | r :: rest, i =>
    if r.logicalY = cY ∧ r.logicalXStart ≤ cX ∧ cX ≤ r.logicalXStart + r.content.length then
      (if 0 < cX ∧ cX = r.logicalXStart ∧ 0 < i then some (i - 1) else some i)
    else if cY < r.logicalY then some (i - 1)
    else findIdxGo cY cX rest (i + 1)

/-- Materialized-table `findCurrentVisualRowIndex`
(`editor.navigation.ts:12-37`): guard `contentWidth <= 0` (in `Nat`,
`screenCols - gutterWidth = 0`), scan the freshly recomputed table, and
fall back to `max(0, table.length - 1)` when the loop runs out. -/
def findCurrentVisualRowIndexTable (lines : List Line)
    (screenCols gutterWidth cY cX : Nat) : Nat :=
  let contentWidth := screenCols - gutterWidth
  if contentWidth = 0 then 0
  else
    let table := recalculateVisualRows lines (max 1 (screenCols - gutterWidth))
    match findIdxGo cY cX table 0 with
    | some i => i
    | none => table.length - 1

/-- `buildVisualRows` distributes over list append. -/
theorem buildVisualRows_append (W : Nat) :
    ∀ (a b : List Line) (y : Nat),
      buildVisualRows W (a ++ b) y
        = buildVisualRows W a y ++ buildVisualRows W b (y + a.length) := by
  intro a
  induction a with
  | nil => intro b y; simp [buildVisualRows]
  | cons l rest ih =>
    intro b y
    simp [buildVisualRows, ih, List.append_assoc, Nat.add_assoc, Nat.add_comm 1 rest.length]

/-- Every table row of a line block carries that block's logical index. -/
theorem mem_buildVisualRows (W : Nat) :
    ∀ (ls : List Line) (y : Nat) (r : VisualRow),
      r ∈ buildVisualRows W ls y → y ≤ r.logicalY ∧ r.logicalY < y + ls.length := by
  intro ls
  induction ls with
  | nil => intro y r hr; simp [buildVisualRows] at hr
  | cons l rest ih =>
    intro y r hr
    simp only [buildVisualRows, List.mem_append] at hr
    rcases hr with hr | hr
    · simp only [lineVisualRows, List.mem_map, List.mem_range] at hr
      obtain ⟨k, hk, hkr⟩ := hr
      subst hkr
      simp [List.length_cons]
    · have := ih (y + 1) r hr
      simp [List.length_cons]
      omega

/-- The table block of one line has exactly the line's visual height. -/
theorem lineVisualRows_length (W y : Nat) (l : Line) :
    (lineVisualRows W y l).length = lineHeight l.length W := by
  simp [lineVisualRows]

/-- `getLineVisualHeight` is `lineHeight` of the indexed line. -/
theorem getLineVisualHeight_eq_lineHeight (lines : List Line) (sc gw i : Nat) :
    getLineVisualHeight lines sc gw i
      = lineHeight (lines.getD i []).length (max 1 (sc - gw)) := rfl

/-- The table of a line prefix has the prefix sum of heights as length. -/
theorem buildVisualRows_take_length (lines : List Line) (sc gw : Nat) :
    ∀ cY, cY ≤ lines.length →
      (buildVisualRows (max 1 (sc - gw)) (lines.take cY) 0).length
        = sumHeightsBefore lines sc gw cY := by
  intro cY
  induction cY with
  | zero => intro h; simp [buildVisualRows, sumHeightsBefore]
  | succ k ih =>
    intro h
    obtain ⟨c, hc⟩ : ∃ c, lines[k]? = some c :=
      ⟨_, List.getElem?_eq_getElem (by omega)⟩
    rw [List.take_succ, hc]
    rw [buildVisualRows_append, List.length_append, ih (by omega),
        sumHeightsBefore_succ]
    congr 1
    simp only [buildVisualRows, List.length_append, List.length_nil,
               lineVisualRows_length]
    have : lines.getD k [] = c := by
      simp [List.getD_eq_getElem?_getD, hc]
    rw [getLineVisualHeight_eq_lineHeight lines sc gw k, this]
    simp [buildVisualRows]

/-- A line always occupies at least one visual row. -/
theorem lineHeight_pos (L W : Nat) (hW : 1 ≤ W) : 1 ≤ lineHeight L W := by
  unfold lineHeight
  by_cases hL : L = 0
  · simp [hL]
  · rw [if_neg hL]
    exact (Nat.le_div_iff_mul_le (by omega)).mpr (by omega)

/-- The visual rows of a line cover it: `L ≤ height · W`. -/
theorem lineHeight_mul_ge (L W : Nat) (hW : 1 ≤ W) : L ≤ lineHeight L W * W := by
  unfold lineHeight
  by_cases hL : L = 0
  · simp [hL]
  · rw [if_neg hL, ceil_div_eq L W hW]
    have hdm := Nat.div_add_mod L W
    have hmod : L % W < W := Nat.mod_lt _ hW
    by_cases hm : L % W = 0
    · rw [if_pos hm]
      have hcomm : (L / W + 0) * W = W * (L / W) := by ring
      omega
    · rw [if_neg hm]
      have hexp : (L / W + 1) * W = W * (L / W) + W := by ring
      omega

/-- A scan over rows that neither match the cursor chunk nor lie past the
cursor's line just advances the index. -/
theorem findIdxGo_skip (cY cX : Nat) :
    ∀ (pre rest : List VisualRow) (i : Nat),
      (∀ r ∈ pre, r.logicalY < cY ∨
        (r.logicalY = cY ∧
          ¬(r.logicalXStart ≤ cX ∧ cX ≤ r.logicalXStart + r.content.length))) →
      findIdxGo cY cX (pre ++ rest) i = findIdxGo cY cX rest (i + pre.length) := by
  intro pre
  induction pre with
  | nil => intro rest i _; simp
  | cons r pre ih =>
    intro rest i hall
    have hr := hall r (by simp)
    have hmatch : ¬(r.logicalY = cY ∧ r.logicalXStart ≤ cX ∧
        cX ≤ r.logicalXStart + r.content.length) := by
      rcases hr with hlt | ⟨heq, hnr⟩
      · rintro ⟨h1, -⟩; omega
      · rintro ⟨-, h2⟩; exact hnr h2
    have hgt : ¬(cY < r.logicalY) := by
      rcases hr with hlt | ⟨heq, -⟩ <;> omega
    rw [List.cons_append,
        show findIdxGo cY cX (r :: (pre ++ rest)) i
          = findIdxGo cY cX (pre ++ rest) (i + 1) from by
        simp [findIdxGo, hmatch, hgt]]
    rw [ih rest (i + 1) (fun x hx => hall x (by simp [hx]))]
    congr 1
    simp [List.length_cons]
    omega

/-- One scan step on a row that matches the cursor chunk without the
wrapped-start edge case: the loop returns the current index. -/
theorem findIdxGo_cons_match (cY cX : Nat) (r : VisualRow)
    (rest : List VisualRow) (i : Nat)
    (h1 : r.logicalY = cY) (h2 : r.logicalXStart ≤ cX)
    (h3 : cX ≤ r.logicalXStart + r.content.length)
    (h4 : ¬(0 < cX ∧ cX = r.logicalXStart ∧ 0 < i)) :
    findIdxGo cY cX (r :: rest) i = some i := by
  unfold findIdxGo
  rw [if_pos ⟨h1, h2, h3⟩, if_neg h4]

/-- Scanning the cursor line's own block: the loop stops inside the block,
at chunk `cX / W` for a cursor strictly inside a chunk, and — through the
wrapped-chunk-start edge case resolving to the PREVIOUS row — at chunk
`cX / W - 1` when `cX` is a positive multiple of `W`. -/
theorem findIdxGo_block (W cY cX : Nat) (l : Line) (hW : 1 ≤ W)
    (hX : cX ≤ l.length) (rest : List VisualRow) (i : Nat) :
    findIdxGo cY cX (lineVisualRows W cY l ++ rest) i
      = some (i + (if 0 < cX ∧ W ∣ cX then cX / W - 1 else cX / W)) := by
  have hq_le : cX / W * W ≤ cX := Nat.div_mul_le_self cX W
  have hdm := Nat.div_add_mod cX W
  have hmod : cX % W < W := Nat.mod_lt _ hW
  have hhge : l.length ≤ lineHeight l.length W * W := lineHeight_mul_ge _ W hW
  have hh1 : 1 ≤ lineHeight l.length W := lineHeight_pos _ W hW
  set L := l.length with hLdef
  set h := lineHeight L W with hhdef
  set q := cX / W with hqdef
  set K := (if 0 < cX ∧ W ∣ cX then q - 1 else q) with hKdef
  have hKfacts : K * W ≤ cX ∧ cX ≤ K * W + min W (L - K * W) ∧
      (∀ k, k < K → k * W + min W (L - k * W) < cX) ∧
      ¬(0 < cX ∧ cX = K * W) ∧ K < h := by
    by_cases hc : 0 < cX ∧ W ∣ cX
    · obtain ⟨hpos, hdvd⟩ := hc
      have hqW : q * W = cX := Nat.div_mul_cancel hdvd
      have hq1 : 1 ≤ q := by
        rcases Nat.eq_zero_or_pos q with h0 | h1
        · rw [h0] at hqW; omega
        · exact h1
      have hKK : K = q - 1 := by rw [hKdef, if_pos ⟨hpos, hdvd⟩]
      have hKW : (q - 1) * W + W = cX := by
        have hstep : (q - 1) * W + W = ((q - 1) + 1) * W := by ring
        rw [hstep, Nat.sub_add_cancel hq1, hqW]
      have hLK : W ≤ L - (q - 1) * W := by omega
      refine ⟨by rw [hKK]; omega, ?_, ?_, ?_, ?_⟩
      · rw [hKK, min_eq_left hLK]; omega
      · intro k hk
        rw [hKK] at hk
        have hmul : (k + 1) * W ≤ (q - 1) * W := Nat.mul_le_mul_right W (by omega)
        have hkk : (k + 1) * W = k * W + W := by ring
        have hminle : min W (L - k * W) ≤ W := min_le_left _ _
        omega
      · rintro ⟨-, hEq⟩
        rw [hKK] at hEq
        omega
      · rw [hKK]
        have hle : q * W ≤ h * W := by omega
        have hqh : q ≤ h := Nat.le_of_mul_le_mul_right hle (by omega)
        rcases Nat.lt_or_ge (q - 1) h with hlt | hge
        · exact hlt
        · omega
    · have hKK : K = q := by rw [hKdef, if_neg hc]
      have hcomm : W * q = q * W := Nat.mul_comm _ _
      have hlt : q * W < cX ∨ cX = 0 := by
        rcases Nat.eq_zero_or_pos cX with h0 | hpos
        · exact Or.inr h0
        · have hnd : ¬ W ∣ cX := fun hd => hc ⟨hpos, hd⟩
          have hm0 : cX % W ≠ 0 := fun hm => hnd (Nat.dvd_of_mod_eq_zero hm)
          omega
      have hq0 : cX = 0 → q = 0 := by
        intro h0
        rw [hqdef, h0]
        exact Nat.zero_div W
      refine ⟨by rw [hKK]; omega, ?_, ?_, ?_, ?_⟩
      · rw [hKK]
        rcases hlt with hlt | h0
        · have h1 : cX < q * W + W := by omega
          rcases le_total W (L - q * W) with hmin | hmin
          · rw [min_eq_left hmin]; omega
          · rw [min_eq_right hmin]; omega
        · have := hq0 h0
          omega
      · intro k hk
        rw [hKK] at hk
        rcases hlt with hlt2 | h0
        · have hmul : (k + 1) * W ≤ q * W := Nat.mul_le_mul_right W (by omega)
          have hkk : (k + 1) * W = k * W + W := by ring
          have hminle : min W (L - k * W) ≤ W := min_le_left _ _
          omega
        · have := hq0 h0
          omega
      · rintro ⟨hpos, hEq⟩
        rw [hKK] at hEq
        exact hc ⟨hpos, by rw [hEq]; exact Dvd.intro_left q rfl⟩
      · rw [hKK]
        rcases hlt with hlt2 | h0
        · by_contra hqh
          push_neg at hqh
          have : h * W ≤ q * W := Nat.mul_le_mul_right W hqh
          omega
        · have := hq0 h0
          omega
  obtain ⟨hKle, hKup, hpre, hedge, hKh⟩ := hKfacts
  have hblock : lineVisualRows W cY l
      = (List.range K).map
          (fun k => VisualRow.mk cY (k * W) ((l.drop (k * W)).take W))
        ++ (VisualRow.mk cY (K * W) ((l.drop (K * W)).take W)
            :: ((List.range (h - K - 1)).map
                (fun x => VisualRow.mk cY ((K + Nat.succ x) * W)
                  ((l.drop ((K + Nat.succ x) * W)).take W)))) := by
    show (List.range h).map _ = _
    conv_lhs => rw [show h = K + (h - K) from by omega, List.range_add]
    rw [List.map_append, List.map_map]
    congr 1
    rw [show h - K = (h - K - 1) + 1 from by omega, List.range_succ_eq_map]
    simp [List.map_map, Function.comp_def]
  rw [hblock, List.append_assoc, List.cons_append]
  rw [findIdxGo_skip cY cX _ _ i ?side]
  case side =>
    intro r hr
    simp only [List.mem_map, List.mem_range] at hr
    obtain ⟨k, hk, rfl⟩ := hr
    refine Or.inr ⟨rfl, ?_⟩
    rintro ⟨-, hub⟩
    dsimp only at hub
    have hclen : ((l.drop (k * W)).take W).length = min W (L - k * W) := by
      simp [List.length_take, List.length_drop]
    rw [hclen] at hub
    have := hpre k hk
    omega
  rw [findIdxGo_cons_match cY cX _ _ _ rfl hKle ?up ?edge]
  case up =>
    show cX ≤ K * W + ((l.drop (K * W)).take W).length
    have hclen : ((l.drop (K * W)).take W).length = min W (L - K * W) := by
      simp [List.length_take, List.length_drop]
    rw [hclen]
    exact hKup
  case edge =>
    rintro ⟨h1, h2, -⟩
    exact hedge ⟨h1, by simpa using h2⟩
  simp [List.length_map, List.length_range]

/-- The materialized-table scan in closed form: the prefix sum of heights
plus the chunk index, with the chunk-boundary tie-break resolving one row
earlier when `cX` is a positive multiple of the width. -/
theorem findCurrentVisualRowIndexTable_eq (lines : List Line) (sc gw cY cX : Nat)
    (hW : gw < sc) (hY : cY < lines.length)
    (hX : cX ≤ (lines.getD cY []).length) :
    findCurrentVisualRowIndexTable lines sc gw cY cX
      = sumHeightsBefore lines sc gw cY
        + (if 0 < cX ∧ (sc - gw) ∣ cX
           then cX / (sc - gw) - 1 else cX / (sc - gw)) := by
  have hWpos : 1 ≤ sc - gw := by omega
  have hmax : max 1 (sc - gw) = sc - gw := by omega
  have htk : (lines.take cY).length = cY := by rw [List.length_take]; omega
  have hdecomp : lines = lines.take cY ++ (lines.getD cY [] :: lines.drop (cY + 1)) := by
    conv_lhs => rw [← List.take_append_drop cY lines]
    congr 1
    rw [List.drop_eq_getElem_cons hY]
    congr 1
    simp [List.getD_eq_getElem?_getD, List.getElem?_eq_getElem hY]
  have hscan : findIdxGo cY cX (recalculateVisualRows lines (max 1 (sc - gw))) 0
      = some (sumHeightsBefore lines sc gw cY
          + (if 0 < cX ∧ (sc - gw) ∣ cX
             then cX / (sc - gw) - 1 else cX / (sc - gw))) := by
    unfold recalculateVisualRows
    conv_lhs => rw [hdecomp]
    rw [buildVisualRows_append, htk, Nat.zero_add]
    rw [show buildVisualRows (max 1 (sc - gw))
          (lines.getD cY [] :: lines.drop (cY + 1)) cY
        = lineVisualRows (max 1 (sc - gw)) cY (lines.getD cY [])
          ++ buildVisualRows (max 1 (sc - gw)) (lines.drop (cY + 1)) (cY + 1)
        from rfl]
    rw [findIdxGo_skip cY cX _ _ 0 ?pre]
    case pre =>
      intro r hr
      have hb := mem_buildVisualRows (max 1 (sc - gw)) (lines.take cY) 0 r hr
      rw [htk] at hb
      left
      omega
    rw [findIdxGo_block (max 1 (sc - gw)) cY cX (lines.getD cY [])
          (le_max_left _ _) hX _ _]
    rw [Nat.zero_add, buildVisualRows_take_length lines sc gw cY (by omega), hmax]
  unfold findCurrentVisualRowIndexTable
  dsimp only
  rw [if_neg (by omega), hscan]

/-- C3 is false as stated: for the single line `"a"` with content width 1
(`screenCols = 2`, `gutterWidth = 1`) and cursor `(0, 1)` — a chunk
boundary — the materialized-table variant answers 0 (the edge case keeps
the cursor on the previous visual row) while the stateless variant
answers `floor(1/1) = 1`. -/
theorem tableIndex_ne_statelessIndex :
    findCurrentVisualRowIndexTable [['a']] 2 1 0 1
      ≠ findCurrentVisualRowIndex [['a']] 2 1 0 1 := by
  decide

/-- C3 amended: for a valid cursor (`cY < lineCount`,
`cX ≤ length(line)`) and positive content width, the materialized-table
variant agrees with the stateless recompute variant except when `cX` is a
positive multiple of the content width: at such chunk boundaries the
table variant returns one less (it treats the boundary as the end of the
previous chunk, the stateless variant as the start of the next). -/
theorem tableIndex_eq_statelessIndex (lines : List Line) (sc gw cY cX : Nat)
    (hW : gw < sc) (hY : cY < lines.length)
    (hX : cX ≤ (lines.getD cY []).length) :
    findCurrentVisualRowIndexTable lines sc gw cY cX
      + (if 0 < cX ∧ (sc - gw) ∣ cX then 1 else 0)
      = findCurrentVisualRowIndex lines sc gw cY cX := by
  rw [findCurrentVisualRowIndexTable_eq lines sc gw cY cX hW hY hX,
      findCurrentVisualRowIndex_eq]
  have hmax : max 1 (sc - gw) = sc - gw := by omega
  rw [hmax]
  by_cases hc : 0 < cX ∧ (sc - gw) ∣ cX
  · rw [if_pos hc, if_pos hc]
    have hq1 : 1 ≤ cX / (sc - gw) :=
      (Nat.one_le_div_iff (by omega)).mpr (Nat.le_of_dvd hc.1 hc.2)
    omega
  · rw [if_neg hc, if_neg hc]
    omega

/-- Witness for amended C3: line `"ab"`, content width 1, cursor at the
chunk boundary column 1: the table variant answers 0, the stateless
variant 1, and the boundary correction closes the gap. -/
theorem tableIndex_eq_statelessIndex_witness :
    ((2 : Nat) < 3 ∧ (0 : Nat) < ([['a', 'b']] : List Line).length ∧
      1 ≤ (([['a', 'b']] : List Line).getD 0 []).length ∧
      findCurrentVisualRowIndexTable [['a', 'b']] 3 2 0 1 = 0 ∧
      findCurrentVisualRowIndex [['a', 'b']] 3 2 0 1 = 1) ∧
    findCurrentVisualRowIndexTable [['a', 'b']] 3 2 0 1
      + (if 0 < 1 ∧ (3 - 2) ∣ 1 then 1 else 0)
      = findCurrentVisualRowIndex [['a', 'b']] 3 2 0 1 :=
  ⟨by decide,
   tableIndex_eq_statelessIndex [['a', 'b']] 3 2 0 1 (by decide) (by decide) (by decide)⟩

/-- A terminal cell (`screen_buffer.ts:3-6`): a character (a JS string,
since the invalidated cell holds `''`) and a style string. -/
structure Cell where
  ch : String
  style : String
deriving DecidableEq, Repr

/-- A character grid, row-major. -/
abbrev Grid := List (List Cell)

/-- The default cell `{ char: ' ', style: '' }` (`screen_buffer.ts:30`). -/
def defaultCell : Cell := ⟨" ", ""⟩

/-- The cell a force-redraw writes into the committed grid so that every
cell diffs (`screen_buffer.ts:75`). -/
def invalidCell : Cell := ⟨"", "INVALID"⟩

/-- Read a cell (`buffer[y][x]`), with the default for out-of-range
indices (the source only indexes in range). -/
def cellAt (g : Grid) (y x : Nat) : Cell := (g.getD y []).getD x defaultCell

/-- Write one cell (`buffer[y][x] = c`); out-of-range writes are no-ops. -/
def setCell (g : Grid) (y x : Nat) (c : Cell) : Grid :=
  g.set y ((g.getD y []).set x c)

/-- `ScreenBuffer` state (`screen_buffer.ts:8-14`): committed
(`currentBuffer`), pending (`nextBuffer`), and the force-redraw flag set
by `resize`. -/
structure ScreenBuffer where
  rows : Nat
  cols : Nat
  currentBuffer : Grid
  nextBuffer : Grid
  forceRedraw : Bool
deriving DecidableEq, Repr

/-- The terminal output of `flush`, as abstract tokens in emission order:
`clearScreen` (`ANSI.CLEAR_SCREEN` on a force redraw), `moveTo` (the
1-based `\x1b[y;xH` cursor move), `styleSeq s` (the reset-then-apply
style change for a cell; for `s = ""` a bare reset), `writeChar`, and
`styleResetFinal` (the reset emitted after the loop if a non-default
style is still active). -/
inductive TermOut
  | clearScreen
  | moveTo (row col : Nat)
  | styleSeq (style : String)
  | writeChar (ch : String)
  | styleResetFinal
deriving DecidableEq, Repr

/-- Accumulator of the `flush` cell loop (`screen_buffer.ts:60-63`):
the output so far, `lastStyle`, `lastY`/`lastX` (initialised to `-1`,
hence `Int`), and the committed grid being updated cell by cell. -/
structure FlushAcc where
  out : List TermOut
  lastStyle : String
  lastY : Int
  lastX : Int
  cur : Grid
deriving DecidableEq, Repr

/-- One iteration of the `flush` cell loop (`screen_buffer.ts:81-127`):
if pending and committed differ in character or style, emit a cursor
move unless contiguous with the previous write, a style sequence if the
style differs from `lastStyle` (updating `lastStyle` inside that check,
as in the source), then the character; finally commit the cell. -/
def flushStep (nextG : Grid) (a : FlushAcc) (p : Nat × Nat) : FlushAcc :=
  let y := p.1
  let x := p.2
  let next := cellAt nextG y x
  let curr := cellAt a.cur y x
  if next.ch ≠ curr.ch ∨ next.style ≠ curr.style then
    let out₁ := if (y : Int) ≠ a.lastY ∨ (x : Int) ≠ a.lastX + 1
      then a.out ++ [TermOut.moveTo (y + 1) (x + 1)] else a.out
    let out₂ := if next.style ≠ a.lastStyle
      then out₁ ++ [TermOut.styleSeq next.style] else out₁
    { out := out₂ ++ [TermOut.writeChar next.ch]
      lastStyle := if next.style ≠ a.lastStyle then next.style else a.lastStyle
      lastY := (y : Int)
      lastX := (x : Int)
      cur := setCell a.cur y x next }
  else a

/-- The row-major traversal order of the nested `for` loops of `flush`. -/
def flushCoords (rows cols : Nat) : List (Nat × Nat) :=
  (List.range rows).flatMap (fun y => (List.range cols).map (fun x => (y, x)))

/-- The committed grid after a force redraw invalidates every cell
(`screen_buffer.ts:73-77`). -/
def invalidGrid (rows cols : Nat) : Grid :=
  List.replicate rows (List.replicate cols invalidCell)

/-- `ScreenBuffer.flush` (`screen_buffer.ts:59-142`): on a force redraw,
emit a clear-screen and invalidate the committed grid first; run the
diff loop over all cells; emit a final style reset if a non-default
style is active; return the emitted tokens (the source writes them to
stdout iff non-empty) and the updated buffer (settled:
`forceRedraw = false`). -/
def flush (s : ScreenBuffer) : List TermOut × ScreenBuffer :=
  let init : FlushAcc :=
    if s.forceRedraw then
      ⟨[TermOut.clearScreen], "", -1, -1, invalidGrid s.rows s.cols⟩
    else ⟨[], "", -1, -1, s.currentBuffer⟩
  let a := (flushCoords s.rows s.cols).foldl (flushStep s.nextBuffer) init
  let out := if a.lastStyle ≠ "" then a.out ++ [TermOut.styleResetFinal] else a.out
  (out, { s with currentBuffer := a.cur, forceRedraw := false })

/-- A loop step on a cell where pending equals committed does nothing. -/
theorem flushStep_eq (nextG : Grid) (a : FlushAcc) (p : Nat × Nat)
    (h : cellAt nextG p.1 p.2 = cellAt a.cur p.1 p.2) :
    flushStep nextG a p = a := by
  unfold flushStep
  rw [if_neg]
  rw [h]
  simp

/-- The loop leaves the accumulator unchanged over any stretch of cells
where pending equals the accumulator's committed grid. -/
theorem foldl_flushStep_eq (nextG : Grid) :
    ∀ (ps : List (Nat × Nat)) (a : FlushAcc),
      (∀ p ∈ ps, cellAt nextG p.1 p.2 = cellAt a.cur p.1 p.2) →
      ps.foldl (flushStep nextG) a = a := by
  intro ps
  induction ps with
  | nil => intro a _; rfl
  | cons p rest ih =>
    intro a hall
    rw [List.foldl_cons, flushStep_eq nextG a p (hall p (by simp))]
    exact ih a (fun q hq => hall q (by simp [hq]))

/-- Membership in the traversal order is exactly being in range. -/
theorem mem_flushCoords (rows cols : Nat) (p : Nat × Nat) :
    p ∈ flushCoords rows cols ↔ p.1 < rows ∧ p.2 < cols := by
  cases p with
  | mk y x =>
    simp [flushCoords, List.mem_flatMap, List.mem_map, List.mem_range]

/-- The traversal order visits each cell once. -/
theorem flushCoords_nodup (rows cols : Nat) : (flushCoords rows cols).Nodup := by
  unfold flushCoords
  rw [List.nodup_flatMap]
  constructor
  · intro y _
    exact (List.nodup_range cols).map (fun a b h => by simpa using h)
  · have := List.pairwise_lt_range rows
    apply List.Pairwise.imp ?_ this
    intro a b hab
    intro q hq hq'
    simp only [List.mem_map, List.mem_range] at hq hq'
    obtain ⟨x, -, rfl⟩ := hq
    obtain ⟨x', -, h⟩ := hq'
    simp only [Prod.mk.injEq] at h
    omega

/-- Writes to one cell do not change the others. -/
theorem cellAt_setCell_ne (g : Grid) (y₀ x₀ y x : Nat) (c : Cell)
    (h : ¬(y = y₀ ∧ x = x₀)) :
    cellAt (setCell g y₀ x₀ c) y x = cellAt g y x := by
  unfold cellAt setCell
  by_cases hy : y = y₀
  · subst hy
    have hx : x ≠ x₀ := fun hx => h ⟨rfl, hx⟩
    simp only [List.getD_eq_getElem?_getD]
    by_cases hlen : y < g.length
    · rw [List.getElem?_set_eq (by simpa using hlen)]
      simp only [Option.getD_some]
      rw [List.getElem?_set_ne (fun hxx => hx hxx.symm)]
    · have h1 : (List.set g y ((g[y]?.getD []).set x₀ c))[y]? = (none : Option (List Cell)) :=
        List.getElem?_eq_none (by simpa [List.length_set] using Nat.le_of_not_lt hlen)
      have h2 : g[y]? = (none : Option (List Cell)) :=
        List.getElem?_eq_none (Nat.le_of_not_lt hlen)
      rw [h1, h2]
  · simp only [List.getD_eq_getElem?_getD]
    rw [List.getElem?_set_ne (fun hyy => hy hyy.symm)]

/-- The traversal splits around any in-range cell, which occurs exactly
once. -/
theorem flushCoords_split (rows cols y₀ x₀ : Nat) (hy : y₀ < rows) (hx : x₀ < cols) :
    ∃ l₁ l₂, flushCoords rows cols = l₁ ++ (y₀, x₀) :: l₂ ∧
      (y₀, x₀) ∉ l₁ ∧ (y₀, x₀) ∉ l₂ := by
  have hmem : (y₀, x₀) ∈ flushCoords rows cols :=
    (mem_flushCoords _ _ _).mpr ⟨hy, hx⟩
  obtain ⟨l₁, l₂, hsplit⟩ := List.append_of_mem hmem
  have hnd := flushCoords_nodup rows cols
  rw [hsplit, List.nodup_append] at hnd
  obtain ⟨-, hnd2, hdisj⟩ := hnd
  exact ⟨l₁, l₂, hsplit, fun hmem1 => hdisj hmem1 (by simp),
         (List.nodup_cons.mp hnd2).1⟩

/-- C4: in the settled state (`forceRedraw = false`): if pending equals
committed on every cell, `flush` emits nothing and leaves the buffer
unchanged; if exactly one cell's character differs (same style), `flush`
emits one cursor move to that cell, at most one style sequence (plus the
loop-end style reset when that style is non-default), and that cell's
character — nothing else — and commits exactly that cell. -/
theorem flush_diffMinimal (s : ScreenBuffer) (hsettled : s.forceRedraw = false) :
    ((∀ y x, y < s.rows → x < s.cols →
        cellAt s.nextBuffer y x = cellAt s.currentBuffer y x) →
      (flush s).1 = [] ∧ (flush s).2 = s) ∧
    (∀ y₀ x₀, y₀ < s.rows → x₀ < s.cols →
      (cellAt s.nextBuffer y₀ x₀).ch ≠ (cellAt s.currentBuffer y₀ x₀).ch →
      (cellAt s.nextBuffer y₀ x₀).style = (cellAt s.currentBuffer y₀ x₀).style →
      (∀ y x, y < s.rows → x < s.cols → ¬(y = y₀ ∧ x = x₀) →
        cellAt s.nextBuffer y x = cellAt s.currentBuffer y x) →
      (flush s).1
        = [TermOut.moveTo (y₀ + 1) (x₀ + 1)]
          ++ (if (cellAt s.nextBuffer y₀ x₀).style ≠ ""
              then [TermOut.styleSeq (cellAt s.nextBuffer y₀ x₀).style] else [])
          ++ [TermOut.writeChar (cellAt s.nextBuffer y₀ x₀).ch]
          ++ (if (cellAt s.nextBuffer y₀ x₀).style ≠ ""
              then [TermOut.styleResetFinal] else []) ∧
      (flush s).2.currentBuffer
        = setCell s.currentBuffer y₀ x₀ (cellAt s.nextBuffer y₀ x₀) ∧
      (∀ y x, ¬(y = y₀ ∧ x = x₀) →
        cellAt (flush s).2.currentBuffer y x = cellAt s.currentBuffer y x)) := by
  constructor
  · intro heq
    have hfold : (flushCoords s.rows s.cols).foldl (flushStep s.nextBuffer)
        ⟨[], "", -1, -1, s.currentBuffer⟩ = ⟨[], "", -1, -1, s.currentBuffer⟩ := by
      apply foldl_flushStep_eq
      intro p hp
      have hb := (mem_flushCoords _ _ p).mp hp
      exact heq p.1 p.2 hb.1 hb.2
    unfold flush
    rw [hsettled]
    dsimp only
    rw [if_neg Bool.false_ne_true, hfold]
    dsimp only
    rw [if_neg (show ¬(("" : String) ≠ "") from fun h => h rfl)]
    refine ⟨rfl, ?_⟩
    cases s with
    | mk r c cur nxt f =>
      dsimp only at hsettled ⊢
      rw [hsettled]
  · intro y₀ x₀ hy hx hch hst hother
    obtain ⟨l₁, l₂, hsplit, hnot1, hnot2⟩ := flushCoords_split s.rows s.cols y₀ x₀ hy hx
    have hf1 : l₁.foldl (flushStep s.nextBuffer) ⟨[], "", -1, -1, s.currentBuffer⟩
        = ⟨[], "", -1, -1, s.currentBuffer⟩ := by
      apply foldl_flushStep_eq
      intro p hp
      have hpin : p ∈ flushCoords s.rows s.cols := by
        rw [hsplit]
        simp [hp]
      have hb := (mem_flushCoords _ _ p).mp hpin
      have hne : ¬(p.1 = y₀ ∧ p.2 = x₀) := by
        rintro ⟨h1, h2⟩
        apply hnot1
        have : p = (y₀, x₀) := by
          cases p
          simp only at h1 h2
          rw [h1, h2]
        rw [← this]
        exact hp
      exact hother p.1 p.2 hb.1 hb.2 hne
    have hstep : flushStep s.nextBuffer ⟨[], "", -1, -1, s.currentBuffer⟩ (y₀, x₀)
        = ⟨[TermOut.moveTo (y₀ + 1) (x₀ + 1)]
            ++ (if (cellAt s.nextBuffer y₀ x₀).style ≠ ""
                then [TermOut.styleSeq (cellAt s.nextBuffer y₀ x₀).style] else [])
            ++ [TermOut.writeChar (cellAt s.nextBuffer y₀ x₀).ch],
           (cellAt s.nextBuffer y₀ x₀).style, (y₀ : Int), (x₀ : Int),
           setCell s.currentBuffer y₀ x₀ (cellAt s.nextBuffer y₀ x₀)⟩ := by
      unfold flushStep
      dsimp only
      rw [if_pos (Or.inl hch),
          if_pos (Or.inl (show ((y₀ : Nat) : Int) ≠ -1 by omega))]
      by_cases hs0 : (cellAt s.nextBuffer y₀ x₀).style = ""
      · have hnn : ¬((cellAt s.nextBuffer y₀ x₀).style ≠ "") := fun h => h hs0
        rw [if_neg hnn, if_neg hnn]
        simp [hs0]
      · rw [if_pos hs0, if_pos hs0]
        simp [hs0]
    have hf2 : l₂.foldl (flushStep s.nextBuffer)
        ⟨[TermOut.moveTo (y₀ + 1) (x₀ + 1)]
            ++ (if (cellAt s.nextBuffer y₀ x₀).style ≠ ""
                then [TermOut.styleSeq (cellAt s.nextBuffer y₀ x₀).style] else [])
            ++ [TermOut.writeChar (cellAt s.nextBuffer y₀ x₀).ch],
           (cellAt s.nextBuffer y₀ x₀).style, (y₀ : Int), (x₀ : Int),
           setCell s.currentBuffer y₀ x₀ (cellAt s.nextBuffer y₀ x₀)⟩
        = ⟨[TermOut.moveTo (y₀ + 1) (x₀ + 1)]
            ++ (if (cellAt s.nextBuffer y₀ x₀).style ≠ ""
                then [TermOut.styleSeq (cellAt s.nextBuffer y₀ x₀).style] else [])
            ++ [TermOut.writeChar (cellAt s.nextBuffer y₀ x₀).ch],
           (cellAt s.nextBuffer y₀ x₀).style, (y₀ : Int), (x₀ : Int),
           setCell s.currentBuffer y₀ x₀ (cellAt s.nextBuffer y₀ x₀)⟩ := by
      apply foldl_flushStep_eq
      intro p hp
      have hpin : p ∈ flushCoords s.rows s.cols := by
        rw [hsplit]
        simp [hp]
      have hb := (mem_flushCoords _ _ p).mp hpin
      have hne : ¬(p.1 = y₀ ∧ p.2 = x₀) := by
        rintro ⟨h1, h2⟩
        apply hnot2
        have : p = (y₀, x₀) := by
          cases p
          simp only at h1 h2
          rw [h1, h2]
        rw [← this]
        exact hp
      show cellAt s.nextBuffer p.1 p.2
          = cellAt (setCell s.currentBuffer y₀ x₀ (cellAt s.nextBuffer y₀ x₀)) p.1 p.2
      rw [cellAt_setCell_ne _ _ _ _ _ _ hne]
      exact hother p.1 p.2 hb.1 hb.2 hne
    have hflush1 : flush s
        = (([TermOut.moveTo (y₀ + 1) (x₀ + 1)]
              ++ (if (cellAt s.nextBuffer y₀ x₀).style ≠ ""
                  then [TermOut.styleSeq (cellAt s.nextBuffer y₀ x₀).style] else [])
              ++ [TermOut.writeChar (cellAt s.nextBuffer y₀ x₀).ch])
            ++ (if (cellAt s.nextBuffer y₀ x₀).style ≠ ""
                then [TermOut.styleResetFinal] else []),
           { s with currentBuffer := (setCell s.currentBuffer y₀ x₀
               (cellAt s.nextBuffer y₀ x₀)), forceRedraw := false }) := by
      unfold flush
      rw [hsettled]
      dsimp only
      rw [if_neg Bool.false_ne_true, hsplit, List.foldl_append, List.foldl_cons,
          hf1, hstep, hf2]
      dsimp only
      by_cases hs0 : (cellAt s.nextBuffer y₀ x₀).style = "" <;> simp [hs0]
    refine ⟨?_, ?_, ?_⟩
    · rw [hflush1]
    · rw [hflush1]
    · intro y x hne
      rw [hflush1]
      exact cellAt_setCell_ne _ _ _ _ _ _ hne

/-- Concrete instance of the single-cell-diff case: a settled 1×2 buffer
whose pending frame changes only the second cell's character from "b" to
"c" flushes exactly one cursor move and one character write. -/
theorem flush_diffMinimal_witness :
    (flush ⟨1, 2, [[⟨"a", ""⟩, ⟨"b", ""⟩]], [[⟨"a", ""⟩, ⟨"c", ""⟩]], false⟩).1
      = [TermOut.moveTo 1 2, TermOut.writeChar "c"] := by
  have h := (flush_diffMinimal
      ⟨1, 2, [[⟨"a", ""⟩, ⟨"b", ""⟩]], [[⟨"a", ""⟩, ⟨"c", ""⟩]], false⟩ rfl).2
      0 1 (by decide) (by decide) (by decide) rfl
      (fun y x hy hx hne => by
        replace hy : y < 1 := hy
        replace hx : x < 2 := hx
        have hy0 : y = 0 := by omega
        have hx01 : x = 0 ∨ x = 1 := by omega
        subst hy0
        rcases hx01 with h | h <;> subst h
        · rfl
        · exact absurd ⟨rfl, rfl⟩ hne)
  rw [h.1]
  rfl

end Cliedit
